import Mathlib

/-!
Shallow embedding of the lox scanner from `crafting_interpreter`
(files `src/token.rs`, `src/err_report.rs`, `src/scanner.rs`).

Rust `String` values are modelled as `List Char` (the scanner walks the
source with `chars().nth`, i.e. character-wise); `usize` as `Nat`.
-/

namespace Lox

/-- Abbreviation turning a Lean string literal into the character list we
use to model Rust strings. -/
def str (s : String) : List Char := s.data

/-- `TokenType` from `src/token.rs`, variants in declaration order. -/
inductive TokenType where
  | LeftParen | RightParen | LeftBrace | RightBrace
  | Comma | Dot | Minus | Plus | Semicolon | Slash | Star | Mod
  | Bang | BangEqual | Equal | EqualEqual
  | Greater | GreaterEqual | Less | LessEqual
  | Identifier | Str | Number
  | And | Assert | Class | Else | False | Fun | For | If | Nil | Or
  | Print | Return | Super | This | True | Var | While
  | EOF
  deriving DecidableEq, Repr

namespace TokenType

/-- `TokenType::clike_enum` from `src/token.rs`: the C-like discriminant. -/
def clike_enum : TokenType → Nat
  | LeftParen => 0 | RightParen => 1 | LeftBrace => 2 | RightBrace => 3
  | Comma => 4 | Dot => 5 | Minus => 6 | Plus => 7 | Semicolon => 8
  | Slash => 9 | Star => 10 | Mod => 11
  | Bang => 12 | BangEqual => 13 | Equal => 14 | EqualEqual => 15
  | Greater => 16 | GreaterEqual => 17 | Less => 18 | LessEqual => 19
  | Identifier => 20 | Str => 21 | Number => 22
  | And => 23 | Assert => 24 | Class => 25 | Else => 26 | False => 27
  | Fun => 28 | For => 29 | If => 30 | Nil => 31 | Or => 32
  | Print => 33 | Return => 34 | Super => 35 | This => 36 | True => 37
  | Var => 38 | While => 39
  | EOF => 40

/-- `TokenType::rustize` from `src/token.rs`: partial inverse of the
C-like discriminant. -/
def rustize : Nat → Option TokenType
  | 0 => some LeftParen | 1 => some RightParen
  | 2 => some LeftBrace | 3 => some RightBrace
  | 4 => some Comma | 5 => some Dot | 6 => some Minus | 7 => some Plus
  | 8 => some Semicolon | 9 => some Slash | 10 => some Star
  | 11 => some Mod
  | 12 => some Bang | 13 => some BangEqual | 14 => some Equal
  | 15 => some EqualEqual | 16 => some Greater | 17 => some GreaterEqual
  | 18 => some Less | 19 => some LessEqual
  | 20 => some Identifier | 21 => some Str | 22 => some Number
  | 23 => some And | 24 => some Assert | 25 => some Class
  | 26 => some Else | 27 => some False | 28 => some Fun | 29 => some For
  | 30 => some If | 31 => some Nil | 32 => some Or | 33 => some Print
  | 34 => some Return | 35 => some Super | 36 => some This
  | 37 => some True | 38 => some Var | 39 => some While
  | 40 => some EOF
  | _ => none

/-- `steps_between` of the `std::iter::Step` impl in `src/token.rs`. -/
def steps_between (a b : TokenType) : Option Nat :=
  if a.clike_enum ≤ b.clike_enum then some (b.clike_enum - a.clike_enum)
  else none

/-- `forward_checked` of the `std::iter::Step` impl in `src/token.rs`. -/
def forward_checked (a : TokenType) (count : Nat) : Option TokenType :=
  rustize (a.clike_enum + count)

/-- `backward_checked` of the `std::iter::Step` impl in `src/token.rs`. -/
def backward_checked (a : TokenType) (count : Nat) : Option TokenType :=
  if a.clike_enum < count then none
  else rustize (a.clike_enum - count)

/-- The `Display` impl for `TokenType` in `src/token.rs`
(braces for `LeftBrace`/`RightBrace` written with escapes). -/
def display : TokenType → List Char
  | LeftParen => str "(" | RightParen => str ")"
  | LeftBrace => str "\x7b" | RightBrace => str "\x7d"
  | Comma => str "," | Dot => str "." | Minus => str "-" | Plus => str "+"
  | Semicolon => str ";" | Slash => str "/" | Star => str "*"
  | Mod => str "%"
  | Bang => str "!" | BangEqual => str "!="
  | Equal => str "=" | EqualEqual => str "=="
  | Greater => str ">" | GreaterEqual => str ">="
  | Less => str "<" | LessEqual => str "<="
  | Identifier => str "token_identifier" | Str => str "token_string"
  | Number => str "token_number"
  | And => str "and" | Assert => str "assert" | Class => str "class"
  | Else => str "else" | False => str "false" | Fun => str "fun"
  | For => str "for" | If => str "if" | Nil => str "nil" | Or => str "or"
  | Print => str "print" | Return => str "return" | Super => str "super"
  | This => str "this" | True => str "true" | Var => str "var"
  | While => str "while"
  | EOF => str "EOF"

/-- `TokenType::keywords` from `src/token.rs`: the reserved-word text of a
keyword variant (`format!` over the `Display` impl), `none` otherwise. -/
def keywords : TokenType → Option (List Char)
  | And => some (display And) | Assert => some (display Assert)
  | Class => some (display Class) | Else => some (display Else)
  | False => some (display False) | For => some (display For)
  | Fun => some (display Fun) | If => some (display If)
  | Nil => some (display Nil) | Or => some (display Or)
  | Print => some (display Print) | Return => some (display Return)
  | Super => some (display Super) | This => some (display This)
  | True => some (display True) | Var => some (display Var)
  | While => some (display While)
  | _ => none

end TokenType

/-- Iteration of a Rust `RangeInclusive<TokenType>` (`a..=b` as used in
`Scanner::new`): while `start < end` (derived `Ord`, i.e. declaration
order, which coincides with `clike_enum` order) yield `start` and step it
forward by one; finally yield `end` itself.  The fuel argument only bounds
the number of iterations; `41` (the number of variants) always suffices.
An exhausted `forward_checked` would panic in Rust; it cannot happen
inside the enum's range. -/
def rangeIncl (a b : TokenType) : Nat → List TokenType
  | 0 => []
  | g + 1 =>
    if a = b then [a]
    else if a.clike_enum < b.clike_enum then
      match TokenType.forward_checked a 1 with
      | some a' => a :: rangeIncl a' b g
      | none => [a]
    else []

/-- The keyword table built in `Scanner::new` (`src/scanner.rs`):
`for tt in And..=While { keywords.insert(tt.keywords().unwrap(), tt) }`.
A `HashMap` keyed by distinct strings is modelled as an association list. -/
def keyword_table : List (List Char × TokenType) :=
  (rangeIncl .And .While 41).map fun tt => ((tt.keywords).getD [], tt)

/-- `ErrorKind` from `src/err_report.rs`. -/
inductive ErrorKind where
  | UnexpectedCharacter (c : Char)
  | UnterminatedString (s : List Char)
  | UnterminatedComment
  | Unknown
  deriving DecidableEq, Repr

/-- `Token` from `src/token.rs`.  Note that the `line` field of the Rust
struct is commented out in the source: a token records only its kind and
its lexeme. -/
structure Token where
  token_type : TokenType
  lexeme : List Char
  deriving DecidableEq, Repr

instance : Inhabited Token := ⟨⟨.EOF, []⟩⟩

/-- `Scanner` from `src/scanner.rs`, with two bookkeeping differences:

* `errors` is the stream of diagnostics handed to `err_report::error`,
  each paired with the `line` value at the moment of the report.  The
  Rust field `had_err` keeps only the most recent of them (its last
  element); the keyword map of the Rust struct is the constant
  `keyword_table`.
* `hung` records that control reached the non-terminating error branch
  of `block_comment` (see there): from that point the Rust process loops
  forever and `scan_tokens` never returns. -/
structure Scanner where
  src : List Char
  tokens : List Token
  start : Nat
  current : Nat
  line : Nat
  errors : List (Nat × ErrorKind)
  hung : Bool
  deriving DecidableEq, Repr

namespace Scanner

/-- `Scanner::new` (the keyword map is modelled by `keyword_table`). -/
def new (src : List Char) : Scanner :=
  { src := src, tokens := [], start := 0, current := 0, line := 1,
    errors := [], hung := false }

/-- `Scanner::peek`: `self.src.chars().nth(self.current).unwrap_or('\0')`. -/
def peek (s : Scanner) : Char := s.src.getD s.current '\x00'

/-- `Scanner::peek2`: one character further than `peek`. -/
def peek2 (s : Scanner) : Char := s.src.getD (s.current + 1) '\x00'

/-- `Scanner::at_end`: `self.current >= self.src.len()`. -/
def at_end (s : Scanner) : Bool := decide (s.src.length ≤ s.current)

/-- `Scanner::eat`: return the character at the cursor, then advance. -/
def eat (s : Scanner) : Char × Scanner :=
  (peek s, { s with current := s.current + 1 })

/-- `Scanner::next_is`: consume the next character iff it equals
`expected`. -/
def next_is (expected : Char) (s : Scanner) : Bool × Scanner :=
  if peek s = expected then (true, { s with current := s.current + 1 })
  else (false, s)

/-- `Scanner::is_digit`. -/
def is_digit (c : Char) : Bool := decide ('0' ≤ c ∧ c ≤ '9')

/-- `Scanner::is_alpha`. -/
def is_alpha (c : Char) : Bool :=
  decide (('a' ≤ c ∧ c ≤ 'z') ∨ ('A' ≤ c ∧ c ≤ 'Z') ∨ c = '_')

/-- `Scanner::is_alphanumeric`. -/
def is_alphanumeric (c : Char) : Bool := is_alpha c || is_digit c

/-- `Scanner::add_token`: push a token whose lexeme is the source slice
`src[start..current]`. -/
def add_token (s : Scanner) (tt : TokenType) : Scanner :=
  { s with tokens :=
      s.tokens ++ [⟨tt, (s.src.drop s.start).take (s.current - s.start)⟩] }

/-- `Scanner::error`: remember the error and report it at the current
line (`err_report::error(self.line, e)` appends to the report stream). -/
def error (s : Scanner) (k : ErrorKind) : Scanner :=
  { s with errors := s.errors ++ [(s.line, k)] }

/-- The `while` loop of `Scanner::string`, by recursion on the number of
unread characters.  The wrapper `stringLoop` passes
`gas = src.length - current`; since `gas = 0` then means `at_end`, the
bare return in the `0` case coincides with the loop's exit condition. -/
def stringLoopGo (s : Scanner) : Nat → Scanner
  | 0 => s
  | g + 1 =>
    if peek s = '"' ∨ at_end s then s
    else stringLoopGo
      { s with line := if peek s = '\n' then s.line + 1 else s.line,
               current := s.current + 1 } g

/-- The `while` loop of `Scanner::string`. -/
def stringLoop (s : Scanner) : Scanner :=
  stringLoopGo s (s.src.length - s.current)

/-- `Scanner::string`, entered right after `scan_token` consumed the
opening quote.  The body starts with an unconditional extra
`self.current += 1`. -/
def string (s : Scanner) : Scanner :=
  let s1 := stringLoop { s with current := s.current + 1 }
  if at_end s1 then
    error s1 (.UnterminatedString (s1.src.drop s1.start))
  else
    add_token { s1 with current := s1.current + 1 } .Str

/-- The digit-run loop of `Scanner::number`
(`while self.is_digit(self.peek()) { self.eat(); }`); with the wrapper's
`gas = src.length - current`, gas `0` means `at_end`, where `peek` is the
sentinel and the loop would exit anyway. -/
def digitsLoopGo (s : Scanner) : Nat → Scanner
  | 0 => s
  | g + 1 =>
    if is_digit (peek s) then
      digitsLoopGo { s with current := s.current + 1 } g
    else s

/-- A maximal digit run, as consumed inside `Scanner::number`. -/
def digitsLoop (s : Scanner) : Scanner :=
  digitsLoopGo s (s.src.length - s.current)

/-- `Scanner::number`. -/
def number (s : Scanner) : Scanner :=
  let s1 := digitsLoop s
  if peek s1 = '.' ∧ is_digit (peek2 s1) then
    add_token (digitsLoop { s1 with current := s1.current + 1 }) .Number
  else
    add_token s1 .Number

/-- The loop of `Scanner::identifier`
(`while self.is_alphanumeric(self.peek()) { self.eat(); }`); gas as in
`digitsLoopGo`. -/
def alnumLoopGo (s : Scanner) : Nat → Scanner
  | 0 => s
  | g + 1 =>
    if is_alphanumeric (peek s) then
      alnumLoopGo { s with current := s.current + 1 } g
    else s

/-- A maximal identifier-character run. -/
def alnumLoop (s : Scanner) : Scanner :=
  alnumLoopGo s (s.src.length - s.current)

/-- `Scanner::identifier`: consume the run, then look the matched text up
in the keyword table, defaulting to `Identifier`. -/
def identifier (s : Scanner) : Scanner :=
  let s1 := alnumLoop s
  let txt := (s1.src.drop s1.start).take (s1.current - s1.start)
  add_token s1 ((keyword_table.lookup txt).getD .Identifier)

/-- The `//` line-comment loop inlined in `Scanner::scan_token`:
`while self.peek() != '\n' && !self.at_end() { self.eat(); }`; gas as in
`stringLoopGo`. -/
def lineCommentGo (s : Scanner) : Nat → Scanner
  | 0 => s
  | g + 1 =>
    if peek s ≠ '\n' ∧ ¬ at_end s then
      lineCommentGo { s with current := s.current + 1 } g
    else s

/-- The `//` line-comment loop. -/
def lineComment (s : Scanner) : Scanner :=
  lineCommentGo s (s.src.length - s.current)

/-- `Scanner::block_comment`, entered right after `/*` was consumed.

One iteration of the Rust `while` loop first evaluates the exit
condition `self.next_is('*') && self.next_is('/')` — which consumes a
`*` even when the character after it is not `/` — and then the body:
a consumed newline bumps `line`; a consumed `/*` runs a nested
`self.block_comment()` before the loop resumes; otherwise, when
`self.current >= self.src.len()`, the Rust code raises
`UnterminatedComment` *and loops again*: nothing advances the cursor, so
that branch repeats forever, reporting the diagnostic endlessly, and
`block_comment` never returns.  Reaching it is modelled by recording the
diagnostic once and setting `hung` (a hung nested call propagates).

The gas argument only bounds the number of steps; the cursor strictly
advances on every path, so `src.length + 1 - current` steps always
suffice (`blockGo_stable`), and with the wrapper's gas the `0` case is
never reached. -/
def blockGo : Nat → Scanner → Scanner
  | 0, s => s
  | g + 1, s =>
    let p1 := next_is '*' s
    let pc := if p1.1 then next_is '/' p1.2 else (false, p1.2)
    if pc.1 then pc.2
    else
      let s1 := pc.2
      let q1 := next_is '\n' s1
      if q1.1 then blockGo g { q1.2 with line := q1.2.line + 1 }
      else
        let q2 := next_is '/' s1
        let q3 := if q2.1 then next_is '*' q2.2 else (false, q2.2)
        if q3.1 then
          let r := blockGo g q3.2
          if r.hung then r else blockGo g r
        else
          let s2 := q3.2
          if s2.src.length ≤ s2.current then
            { error s2 .UnterminatedComment with hung := true }
          else
            blockGo g { s2 with current := s2.current + 1 }

/-- `Scanner::block_comment`. -/
def block_comment (s : Scanner) : Scanner :=
  blockGo (s.src.length + 1 - s.current) s

/-- `Scanner::scan_token`: consume one character and dispatch on it
(braces written with escapes). -/
def scan_token (s0 : Scanner) : Scanner :=
  let p := eat s0
  let s := p.2
  match p.1 with
  | '(' => add_token s .LeftParen
  | ')' => add_token s .RightParen
  | '\x7b' => add_token s .LeftBrace
  | '\x7d' => add_token s .RightBrace
  | ',' => add_token s .Comma
  | '.' => add_token s .Dot
  | '-' => add_token s .Minus
  | '+' => add_token s .Plus
  | ';' => add_token s .Semicolon
  | '*' => add_token s .Star
  | '%' => add_token s .Mod
  | '!' =>
    let q := next_is '=' s
    add_token q.2 (if q.1 then .BangEqual else .Bang)
  | '=' =>
    let q := next_is '=' s
    add_token q.2 (if q.1 then .EqualEqual else .Equal)
  | '<' =>
    let q := next_is '=' s
    add_token q.2 (if q.1 then .LessEqual else .Less)
  | '>' =>
    let q := next_is '=' s
    add_token q.2 (if q.1 then .GreaterEqual else .Greater)
  | '/' =>
    let q := next_is '/' s
    if q.1 then lineComment q.2
    else
      let q2 := next_is '*' q.2
      if q2.1 then block_comment q2.2
      else add_token q2.2 .Slash
  | ' ' => s
  | '\r' => s
  | '\t' => s
  | '\n' => { s with line := s.line + 1 }
  | '"' => string s
  | c =>
    if is_digit c then number s
    else if is_alpha c then identifier s
    else error s (.UnexpectedCharacter c)

/-- The loop of `Scanner::scan_tokens`:
`while !at_end { scan_token(); start = current; }`.  A `scan_token` that
hung inside `block_comment` never hands control back to this loop.  Gas
as in `blockGo`: every iteration advances the cursor, so the wrapper's
`src.length + 1 - current` steps always suffice (`scanLoopGo_stable`). -/
def scanLoopGo : Nat → Scanner → Scanner
  | 0, s => s
  | g + 1, s =>
    if at_end s then s
    else
      let s' := scan_token s
      if s'.hung then s' else scanLoopGo g { s' with start := s'.current }

/-- The loop of `Scanner::scan_tokens`. -/
def scanLoop (s : Scanner) : Scanner :=
  scanLoopGo (s.src.length + 1 - s.current) s

/-- `Scanner::scan_tokens`: run the loop, then push the one EOF token
with empty lexeme.  When the pass hung inside a block comment the Rust
function never returns; the state at that moment is kept, with `hung`
set and no EOF token pushed. -/
def scan_tokens (s : Scanner) : Scanner :=
  let s' := scanLoop s
  if s'.hung then s'
  else { s' with tokens := s'.tokens ++ [⟨.EOF, []⟩] }

end Scanner

/-- Final scanner state of one pass over `src`. -/
def scanState (src : List Char) : Scanner :=
  Scanner.scan_tokens (Scanner.new src)

/-- The token list `Scanner::scan_tokens` returns for source `src`, or
`none` when the pass hangs inside `block_comment` and never returns. -/
def scanned (src : List Char) : Option (List Token) :=
  if (scanState src).hung then none else some (scanState src).tokens

/-- Number of newline characters among positions `a ≤ k < b` of `l`
(used to state how the scanner's `line` field evolves). -/
def nlCount (l : List Char) (a b : Nat) : Nat :=
  ((l.drop a).take (b - a)).count '\n'

/-- Sources in which no `/` is directly followed by a newline.  Inside
`Scanner::block_comment` the failed `self.next_is('/')` probe still
consumes the `/`, after which the loop body eats the following character
without ever testing it for `'\n'`; on `slashSafe` sources that blind
eat can never swallow a newline, so `line` counts every consumed newline
exactly (outside string literals). -/
def slashSafe (l : List Char) : Prop :=
  ∀ i, i < l.length → l.getD i '\x00' = '/' → l.getD (i + 1) '\x00' ≠ '\n'

instance (l : List Char) : Decidable (slashSafe l) := by
  unfold slashSafe; infer_instance


namespace Scanner

/-! ### Basic facts about the cursor primitives and the simple loops -/

theorem current_lt_of_peek_ne (s : Scanner) (h : peek s ≠ '\x00') :
    s.current < s.src.length := by
  by_contra hc
  apply h
  have hn : s.src[s.current]? = none := List.getElem?_eq_none (by omega)
  simp [peek, List.getD, hn]

theorem stringLoopGo_state : ∀ (g : Nat) (s : Scanner),
    (stringLoopGo s g).src = s.src ∧ (stringLoopGo s g).tokens = s.tokens ∧
    (stringLoopGo s g).errors = s.errors ∧ (stringLoopGo s g).start = s.start ∧
    (stringLoopGo s g).hung = s.hung ∧ s.current ≤ (stringLoopGo s g).current ∧
    (stringLoopGo s g).current ≤ max s.current s.src.length ∧
    s.line ≤ (stringLoopGo s g).line := by
  intro g
  induction g with
  | zero => intro s; simp [stringLoopGo]
  | succ g ih =>
    intro s
    rw [stringLoopGo]
    split
    · simp
    · rename_i hcond
      have hend : s.current < s.src.length := by
        rcases not_or.mp hcond with ⟨-, h2⟩
        simpa [at_end] using h2
      obtain ⟨h1, h2, h3, h4, h5, h6, h7, h8⟩ :=
        ih { s with line := if peek s = '\n' then s.line + 1 else s.line,
                    current := s.current + 1 }
      dsimp only at h1 h2 h3 h4 h5 h6 h7 h8
      refine ⟨h1, h2, h3, h4, h5, by omega, by omega, ?_⟩
      exact le_trans (by split <;> omega) h8

theorem digitsLoopGo_state : ∀ (g : Nat) (s : Scanner),
    (digitsLoopGo s g).src = s.src ∧ (digitsLoopGo s g).tokens = s.tokens ∧
    (digitsLoopGo s g).errors = s.errors ∧ (digitsLoopGo s g).start = s.start ∧
    (digitsLoopGo s g).hung = s.hung ∧ s.current ≤ (digitsLoopGo s g).current ∧
    (digitsLoopGo s g).current ≤ max s.current s.src.length ∧
    (digitsLoopGo s g).line = s.line := by
  intro g
  induction g with
  | zero => intro s; simp [digitsLoopGo]
  | succ g ih =>
    intro s
    rw [digitsLoopGo]
    split
    · rename_i hdig
      have hend : s.current < s.src.length := by
        refine current_lt_of_peek_ne s fun h0 => ?_
        rw [h0] at hdig
        exact absurd hdig (by decide)
      obtain ⟨h1, h2, h3, h4, h5, h6, h7, h8⟩ := ih { s with current := s.current + 1 }
      dsimp only at h1 h2 h3 h4 h5 h6 h7 h8
      exact ⟨h1, h2, h3, h4, h5, by omega, by omega, h8⟩
    · simp

theorem alnumLoopGo_state : ∀ (g : Nat) (s : Scanner),
    (alnumLoopGo s g).src = s.src ∧ (alnumLoopGo s g).tokens = s.tokens ∧
    (alnumLoopGo s g).errors = s.errors ∧ (alnumLoopGo s g).start = s.start ∧
    (alnumLoopGo s g).hung = s.hung ∧ s.current ≤ (alnumLoopGo s g).current ∧
    (alnumLoopGo s g).current ≤ max s.current s.src.length ∧
    (alnumLoopGo s g).line = s.line := by
  intro g
  induction g with
  | zero => intro s; simp [alnumLoopGo]
  | succ g ih =>
    intro s
    rw [alnumLoopGo]
    split
    · rename_i hal
      have hend : s.current < s.src.length := by
        refine current_lt_of_peek_ne s fun h0 => ?_
        rw [h0] at hal
        exact absurd hal (by decide)
      obtain ⟨h1, h2, h3, h4, h5, h6, h7, h8⟩ := ih { s with current := s.current + 1 }
      dsimp only at h1 h2 h3 h4 h5 h6 h7 h8
      exact ⟨h1, h2, h3, h4, h5, by omega, by omega, h8⟩
    · simp

theorem lineCommentGo_state : ∀ (g : Nat) (s : Scanner),
    (lineCommentGo s g).src = s.src ∧ (lineCommentGo s g).tokens = s.tokens ∧
    (lineCommentGo s g).errors = s.errors ∧ (lineCommentGo s g).start = s.start ∧
    (lineCommentGo s g).hung = s.hung ∧ s.current ≤ (lineCommentGo s g).current ∧
    (lineCommentGo s g).current ≤ max s.current s.src.length ∧
    (lineCommentGo s g).line = s.line := by
  intro g
  induction g with
  | zero => intro s; simp [lineCommentGo]
  | succ g ih =>
    intro s
    rw [lineCommentGo]
    split
    · rename_i hcond
      have hend : s.current < s.src.length := by
        simpa [at_end] using hcond.2
      obtain ⟨h1, h2, h3, h4, h5, h6, h7, h8⟩ := ih { s with current := s.current + 1 }
      dsimp only at h1 h2 h3 h4 h5 h6 h7 h8
      exact ⟨h1, h2, h3, h4, h5, by omega, by omega, h8⟩
    · simp

end Scanner


namespace Scanner

theorem lt_length_of_getD_ne (l : List Char) (n : Nat) (h : l[n]?.getD '\x00' ≠ '\x00') :
    n < l.length := by
  by_contra hc
  apply h
  have hn : l[n]? = none := List.getElem?_eq_none (by omega)
  simp [hn]

theorem blockGo_state : ∀ (g : Nat) (s : Scanner),
    (blockGo g s).src = s.src ∧ (blockGo g s).tokens = s.tokens ∧
    (blockGo g s).start = s.start ∧ s.current ≤ (blockGo g s).current ∧
    (blockGo g s).current ≤ max s.current s.src.length ∧
    s.line ≤ (blockGo g s).line ∧
    ∃ es, (blockGo g s).errors = s.errors ++ es := by
  intro g
  induction g with
  | zero =>
    intro s
    exact ⟨rfl, rfl, rfl, le_refl _, le_max_left _ _, le_refl _, [], by simp [blockGo]⟩
  | succ g ih =>
    intro s
    have step : ∀ a : Scanner, a.src = s.src → a.tokens = s.tokens →
        a.start = s.start → s.current ≤ a.current → a.current ≤ s.src.length →
        s.line ≤ a.line → (∃ es0, a.errors = s.errors ++ es0) →
        (blockGo g a).src = s.src ∧ (blockGo g a).tokens = s.tokens ∧
        (blockGo g a).start = s.start ∧ s.current ≤ (blockGo g a).current ∧
        (blockGo g a).current ≤ s.src.length ∧
        s.line ≤ (blockGo g a).line ∧
        ∃ es, (blockGo g a).errors = s.errors ++ es := by
      intro a ha1 ha2 ha3 ha4 ha5 ha6 ha7
      obtain ⟨k1, k2, k3, k4, k5, k6, k7⟩ := ih a
      obtain ⟨es0, hes0⟩ := ha7
      obtain ⟨es1, hes1⟩ := k7
      refine ⟨by rw [k1, ha1], by rw [k2, ha2], by rw [k3, ha3], by omega,
        by rw [ha1] at k5; omega, by omega, es0 ++ es1, ?_⟩
      rw [hes1, hes0, List.append_assoc]
    by_cases h1 : s.src[s.current]?.getD '\x00' = '*'
    · have hc : s.current < s.src.length :=
        lt_length_of_getD_ne s.src s.current (by rw [h1]; decide)
      by_cases h2 : s.src[s.current + 1]?.getD '\x00' = '/'
      · -- guard matched `*/`: the loop exits two characters further
        have hc2 : s.current + 1 < s.src.length :=
          lt_length_of_getD_ne s.src (s.current + 1) (by rw [h2]; decide)
        have he : blockGo (g + 1) s = { s with current := s.current + 1 + 1 } := by
          rw [blockGo]; simp [next_is, peek, h1, h2]
        rw [he]
        exact ⟨rfl, rfl, rfl, by show s.current ≤ s.current + 1 + 1; omega,
          le_max_of_le_right (by show s.current + 1 + 1 ≤ s.src.length; omega), le_refl _,
          [], by simp⟩
      · -- the guard consumed the `*`; the body runs one character further on
        by_cases h3 : s.src[s.current + 1]?.getD '\x00' = '\n'
        · have hc2 : s.current + 1 < s.src.length :=
            lt_length_of_getD_ne s.src (s.current + 1) (by rw [h3]; decide)
          have he : blockGo (g + 1) s =
              blockGo g { s with current := s.current + 1 + 1, line := s.line + 1 } := by
            rw [blockGo]; simp [next_is, peek, h1, h2, h3]
          rw [he]
          obtain ⟨k1, k2, k3, k4, k5, k6, k7⟩ :=
            step { s with current := s.current + 1 + 1, line := s.line + 1 }
              rfl rfl rfl (by show s.current ≤ s.current + 1 + 1; omega)
              (by show s.current + 1 + 1 ≤ s.src.length; omega)
              (by show s.line ≤ s.line + 1; omega) ⟨[], by simp⟩
          exact ⟨k1, k2, k3, k4, le_max_of_le_right k5, k6, k7⟩
        · -- not a newline, not `/` (the guard ate the `*`): plain eat or end
          by_cases h4 : s.src.length ≤ s.current + 1
          · have he : blockGo (g + 1) s =
                { s with current := s.current + 1,
                         errors := s.errors ++ [(s.line, .UnterminatedComment)],
                         hung := true } := by
              rw [blockGo]; simp [next_is, peek, error, h1, h2, h3, h4]
            rw [he]
            exact ⟨rfl, rfl, rfl, by show s.current ≤ s.current + 1; omega,
              le_max_of_le_right (by show s.current + 1 ≤ s.src.length; omega), le_refl _,
              [(s.line, .UnterminatedComment)], by simp⟩
          · have he : blockGo (g + 1) s =
                blockGo g { s with current := s.current + 1 + 1 } := by
              rw [blockGo]; simp [next_is, peek, h1, h2, h3, h4]
            rw [he]
            obtain ⟨k1, k2, k3, k4, k5, k6, k7⟩ :=
              step { s with current := s.current + 1 + 1 }
                rfl rfl rfl (by show s.current ≤ s.current + 1 + 1; omega) (by show s.current + 1 + 1 ≤ s.src.length; omega)
                (by show s.line ≤ s.line; omega) ⟨[], by simp⟩
            exact ⟨k1, k2, k3, k4, le_max_of_le_right k5, k6, k7⟩
    · -- the guard consumed nothing
      by_cases h3 : s.src[s.current]?.getD '\x00' = '\n'
      · have hc : s.current < s.src.length :=
          lt_length_of_getD_ne s.src s.current (by rw [h3]; decide)
        have he : blockGo (g + 1) s =
            blockGo g { s with current := s.current + 1, line := s.line + 1 } := by
          rw [blockGo]; simp [next_is, peek, h1, h3]
        rw [he]
        obtain ⟨k1, k2, k3, k4, k5, k6, k7⟩ :=
          step { s with current := s.current + 1, line := s.line + 1 }
            rfl rfl rfl (by show s.current ≤ s.current + 1; omega)
            (by show s.current + 1 ≤ s.src.length; omega)
            (by show s.line ≤ s.line + 1; omega) ⟨[], by simp⟩
        exact ⟨k1, k2, k3, k4, le_max_of_le_right k5, k6, k7⟩
      · by_cases h4 : s.src[s.current]?.getD '\x00' = '/'
        · have hc : s.current < s.src.length :=
            lt_length_of_getD_ne s.src s.current (by rw [h4]; decide)
          by_cases h5 : s.src[s.current + 1]?.getD '\x00' = '*'
          · -- `/*`: nested comment, then the loop resumes
            have hc2 : s.current + 1 < s.src.length :=
              lt_length_of_getD_ne s.src (s.current + 1) (by rw [h5]; decide)
            have he : blockGo (g + 1) s =
                (if (blockGo g { s with current := s.current + 1 + 1 }).hung = true
                 then blockGo g { s with current := s.current + 1 + 1 }
                 else blockGo g (blockGo g { s with current := s.current + 1 + 1 })) := by
              rw [blockGo]; simp [next_is, peek, h1, h3, h4, h5]
            rw [he]
            obtain ⟨k1, k2, k3, k4, k5, k6, k7⟩ :=
              step { s with current := s.current + 1 + 1 }
                rfl rfl rfl (by show s.current ≤ s.current + 1 + 1; omega) (by show s.current + 1 + 1 ≤ s.src.length; omega)
                (by show s.line ≤ s.line; omega) ⟨[], by simp⟩
            split
            · exact ⟨k1, k2, k3, k4, le_max_of_le_right k5, k6, k7⟩
            · obtain ⟨m1, m2, m3, m4, m5, m6, m7⟩ :=
                step (blockGo g { s with current := s.current + 1 + 1 })
                  k1 k2 k3 k4 k5 k6 k7
              exact ⟨m1, m2, m3, m4, le_max_of_le_right m5, m6, m7⟩
          · -- `/` not followed by `*`: the failed probe still ate the `/`
            by_cases h6 : s.src.length ≤ s.current + 1
            · have he : blockGo (g + 1) s =
                  { s with current := s.current + 1,
                           errors := s.errors ++ [(s.line, .UnterminatedComment)],
                           hung := true } := by
                rw [blockGo]; simp [next_is, peek, error, h1, h3, h4, h5, h6]
              rw [he]
              exact ⟨rfl, rfl, rfl, by show s.current ≤ s.current + 1; omega,
                le_max_of_le_right (by show s.current + 1 ≤ s.src.length; omega), le_refl _,
                [(s.line, .UnterminatedComment)], by simp⟩
            · have he : blockGo (g + 1) s =
                  blockGo g { s with current := s.current + 1 + 1 } := by
                rw [blockGo]; simp [next_is, peek, h1, h3, h4, h5, h6]
              rw [he]
              obtain ⟨k1, k2, k3, k4, k5, k6, k7⟩ :=
                step { s with current := s.current + 1 + 1 }
                  rfl rfl rfl (by show s.current ≤ s.current + 1 + 1; omega) (by show s.current + 1 + 1 ≤ s.src.length; omega)
                  (by show s.line ≤ s.line; omega) ⟨[], by simp⟩
              exact ⟨k1, k2, k3, k4, le_max_of_le_right k5, k6, k7⟩
        · -- no probe consumed anything: end-of-input check, then plain eat
          by_cases h6 : s.src.length ≤ s.current
          · have he : blockGo (g + 1) s =
                { s with errors := s.errors ++ [(s.line, .UnterminatedComment)],
                         hung := true } := by
              rw [blockGo]; simp [next_is, peek, error, h1, h3, h4, h6]
            rw [he]
            exact ⟨rfl, rfl, rfl, le_refl _, le_max_left _ _, le_refl _,
              [(s.line, .UnterminatedComment)], by simp⟩
          · have he : blockGo (g + 1) s =
                blockGo g { s with current := s.current + 1 } := by
              rw [blockGo]; simp [next_is, peek, h1, h3, h4, h6]
            rw [he]
            obtain ⟨k1, k2, k3, k4, k5, k6, k7⟩ :=
              step { s with current := s.current + 1 }
                rfl rfl rfl (by show s.current ≤ s.current + 1; omega) (by show s.current + 1 ≤ s.src.length; omega)
                (by show s.line ≤ s.line; omega) ⟨[], by simp⟩
            exact ⟨k1, k2, k3, k4, le_max_of_le_right k5, k6, k7⟩

end Scanner


namespace Scanner

theorem blockGo_stable : ∀ (g : Nat) (s : Scanner), 1 ≤ g →
    s.src.length + 1 - s.current ≤ g → blockGo (g + 1) s = blockGo g s := by
  intro g
  induction g with
  | zero => intro s h1 _; omega
  | succ g ih =>
    intro s _ hgas
    by_cases h1 : s.src[s.current]?.getD '\x00' = '*'
    · have hc : s.current < s.src.length :=
        lt_length_of_getD_ne s.src s.current (by rw [h1]; decide)
      by_cases h2 : s.src[s.current + 1]?.getD '\x00' = '/'
      · have he : ∀ k, blockGo (k + 1) s = { s with current := s.current + 1 + 1 } := by
          intro k; rw [blockGo]; simp [next_is, peek, h1, h2]
        rw [he (g + 1), he g]
      · by_cases h3 : s.src[s.current + 1]?.getD '\x00' = '\n'
        · have hc2 : s.current + 1 < s.src.length :=
            lt_length_of_getD_ne s.src (s.current + 1) (by rw [h3]; decide)
          have he : ∀ k, blockGo (k + 1) s =
              blockGo k { s with current := s.current + 1 + 1, line := s.line + 1 } := by
            intro k; rw [blockGo]; simp [next_is, peek, h1, h2, h3]
          rw [he (g + 1), he g]
          exact ih _ (by omega) (by show s.src.length + 1 - (s.current + 1 + 1) ≤ g; omega)
        · by_cases h4 : s.src.length ≤ s.current + 1
          · have he : ∀ k, blockGo (k + 1) s =
                { s with current := s.current + 1,
                         errors := s.errors ++ [(s.line, .UnterminatedComment)],
                         hung := true } := by
              intro k; rw [blockGo]; simp [next_is, peek, error, h1, h2, h3, h4]
            rw [he (g + 1), he g]
          · have he : ∀ k, blockGo (k + 1) s =
                blockGo k { s with current := s.current + 1 + 1 } := by
              intro k; rw [blockGo]; simp [next_is, peek, h1, h2, h3, h4]
            rw [he (g + 1), he g]
            exact ih _ (by omega) (by show s.src.length + 1 - (s.current + 1 + 1) ≤ g; omega)
    · by_cases h3 : s.src[s.current]?.getD '\x00' = '\n'
      · have hc : s.current < s.src.length :=
          lt_length_of_getD_ne s.src s.current (by rw [h3]; decide)
        have he : ∀ k, blockGo (k + 1) s =
            blockGo k { s with current := s.current + 1, line := s.line + 1 } := by
          intro k; rw [blockGo]; simp [next_is, peek, h1, h3]
        rw [he (g + 1), he g]
        exact ih _ (by omega) (by show s.src.length + 1 - (s.current + 1) ≤ g; omega)
      · by_cases h4 : s.src[s.current]?.getD '\x00' = '/'
        · have hc : s.current < s.src.length :=
            lt_length_of_getD_ne s.src s.current (by rw [h4]; decide)
          by_cases h5 : s.src[s.current + 1]?.getD '\x00' = '*'
          · have hc2 : s.current + 1 < s.src.length :=
              lt_length_of_getD_ne s.src (s.current + 1) (by rw [h5]; decide)
            have he : ∀ k, blockGo (k + 1) s =
                (if (blockGo k { s with current := s.current + 1 + 1 }).hung = true
                 then blockGo k { s with current := s.current + 1 + 1 }
                 else blockGo k (blockGo k { s with current := s.current + 1 + 1 })) := by
              intro k; rw [blockGo]; simp [next_is, peek, h1, h3, h4, h5]
            rw [he (g + 1), he g]
            have hA : blockGo (g + 1) { s with current := s.current + 1 + 1 } =
                blockGo g { s with current := s.current + 1 + 1 } :=
              ih _ (by omega) (by show s.src.length + 1 - (s.current + 1 + 1) ≤ g; omega)
            rw [hA]
            by_cases hr : (blockGo g { s with current := s.current + 1 + 1 }).hung = true
            · simp [hr]
            · simp only [hr, if_false, Bool.false_eq_true]
              obtain ⟨m1, -, -, m4, -, -, -⟩ :=
                blockGo_state g { s with current := s.current + 1 + 1 }
              have hm1 : (blockGo g { s with current := s.current + 1 + 1 }).src
                  = s.src := m1
              have hm4 : s.current + 1 + 1 ≤
                  (blockGo g { s with current := s.current + 1 + 1 }).current := m4
              refine ih _ (by omega) ?_
              rw [hm1]
              omega
          · by_cases h6 : s.src.length ≤ s.current + 1
            · have he : ∀ k, blockGo (k + 1) s =
                  { s with current := s.current + 1,
                           errors := s.errors ++ [(s.line, .UnterminatedComment)],
                           hung := true } := by
                intro k; rw [blockGo]; simp [next_is, peek, error, h1, h3, h4, h5, h6]
              rw [he (g + 1), he g]
            · have he : ∀ k, blockGo (k + 1) s =
                  blockGo k { s with current := s.current + 1 + 1 } := by
                intro k; rw [blockGo]; simp [next_is, peek, h1, h3, h4, h5, h6]
              rw [he (g + 1), he g]
              exact ih _ (by omega)
                (by show s.src.length + 1 - (s.current + 1 + 1) ≤ g; omega)
        · by_cases h6 : s.src.length ≤ s.current
          · have he : ∀ k, blockGo (k + 1) s =
                { s with errors := s.errors ++ [(s.line, .UnterminatedComment)],
                         hung := true } := by
              intro k; rw [blockGo]; simp [next_is, peek, error, h1, h3, h4, h6]
            rw [he (g + 1), he g]
          · have he : ∀ k, blockGo (k + 1) s =
                blockGo k { s with current := s.current + 1 } := by
              intro k; rw [blockGo]; simp [next_is, peek, h1, h3, h4, h6]
            rw [he (g + 1), he g]
            exact ih _ (by omega) (by show s.src.length + 1 - (s.current + 1) ≤ g; omega)

/-- Any gas at least `src.length + 1 - current` computes the same result
as the wrapper `block_comment` (for a cursor inside the source): the
model is gas-independent in the supported regime. -/
theorem blockGo_eq_block_comment : ∀ (g : Nat) (s : Scanner),
    s.current ≤ s.src.length → s.src.length + 1 - s.current ≤ g →
    blockGo g s = block_comment s := by
  intro g
  induction g with
  | zero => intro s h1 h2; omega
  | succ g ih =>
    intro s hcur hgas
    rcases Nat.lt_or_ge g (s.src.length + 1 - s.current) with hlt | hge
    · have hg1 : g + 1 = s.src.length + 1 - s.current := by omega
      rw [block_comment, ← hg1]
    · rw [blockGo_stable g s (by omega) hge]
      exact ih s hcur hge

end Scanner


namespace Scanner

theorem stringLoop_state (s : Scanner) :
    (stringLoop s).src = s.src ∧ (stringLoop s).tokens = s.tokens ∧
    (stringLoop s).errors = s.errors ∧ (stringLoop s).start = s.start ∧
    (stringLoop s).hung = s.hung ∧ s.current ≤ (stringLoop s).current ∧
    (stringLoop s).current ≤ max s.current s.src.length ∧
    s.line ≤ (stringLoop s).line := by
  rw [stringLoop]; exact stringLoopGo_state _ s

theorem digitsLoop_state (s : Scanner) :
    (digitsLoop s).src = s.src ∧ (digitsLoop s).tokens = s.tokens ∧
    (digitsLoop s).errors = s.errors ∧ (digitsLoop s).start = s.start ∧
    (digitsLoop s).hung = s.hung ∧ s.current ≤ (digitsLoop s).current ∧
    (digitsLoop s).current ≤ max s.current s.src.length ∧
    (digitsLoop s).line = s.line := by
  rw [digitsLoop]; exact digitsLoopGo_state _ s

theorem alnumLoop_state (s : Scanner) :
    (alnumLoop s).src = s.src ∧ (alnumLoop s).tokens = s.tokens ∧
    (alnumLoop s).errors = s.errors ∧ (alnumLoop s).start = s.start ∧
    (alnumLoop s).hung = s.hung ∧ s.current ≤ (alnumLoop s).current ∧
    (alnumLoop s).current ≤ max s.current s.src.length ∧
    (alnumLoop s).line = s.line := by
  rw [alnumLoop]; exact alnumLoopGo_state _ s

theorem lineComment_state (s : Scanner) (h : s.current ≤ s.src.length) :
    (lineComment s).src = s.src ∧ (lineComment s).tokens = s.tokens ∧
    (lineComment s).errors = s.errors ∧ (lineComment s).start = s.start ∧
    (lineComment s).hung = s.hung ∧ s.current ≤ (lineComment s).current ∧
    (lineComment s).current ≤ s.src.length ∧ (lineComment s).line = s.line := by
  obtain ⟨l1, l2, l3, l4, l5, l6, l7, l8⟩ := lineCommentGo_state (s.src.length - s.current) s
  rw [lineComment]
  exact ⟨l1, l2, l3, l4, l5, l6, le_trans l7 (max_le h (le_refl _)), l8⟩

theorem block_comment_state (s : Scanner) (h : s.current ≤ s.src.length) :
    (block_comment s).src = s.src ∧ (block_comment s).tokens = s.tokens ∧
    (block_comment s).start = s.start ∧ s.current ≤ (block_comment s).current ∧
    (block_comment s).current ≤ s.src.length ∧
    s.line ≤ (block_comment s).line ∧
    ∃ es, (block_comment s).errors = s.errors ++ es := by
  obtain ⟨l1, l2, l3, l4, l5, l6, l7⟩ := blockGo_state (s.src.length + 1 - s.current) s
  rw [block_comment]
  exact ⟨l1, l2, l3, l4, le_trans l5 (max_le h (le_refl _)), l6, l7⟩

theorem string_state (s : Scanner) (h : s.current ≤ s.src.length) :
    (string s).src = s.src ∧ (string s).start = s.start ∧
    s.current + 1 ≤ (string s).current ∧
    (string s).current ≤ s.src.length + 1 ∧
    s.line ≤ (string s).line ∧ (string s).hung = s.hung := by
  obtain ⟨l1, l2, l3, l4, l5, l6, l7, l8⟩ :=
    stringLoop_state { s with current := s.current + 1 }
  have a1 : (stringLoop { s with current := s.current + 1 }).src = s.src := l1
  have a2 : (stringLoop { s with current := s.current + 1 }).start = s.start := l4
  have a3 : (stringLoop { s with current := s.current + 1 }).hung = s.hung := l5
  have a4 : s.current + 1 ≤ (stringLoop { s with current := s.current + 1 }).current := l6
  have a5 : (stringLoop { s with current := s.current + 1 }).current ≤
      max (s.current + 1) s.src.length := l7
  have a6 : s.line ≤ (stringLoop { s with current := s.current + 1 }).line := l8
  have a5' : (stringLoop { s with current := s.current + 1 }).current ≤ s.src.length + 1 :=
    le_trans a5 (max_le (by omega) (by omega))
  rw [string]
  split
  · exact ⟨a1, a2, a4, a5', a6, a3⟩
  · rename_i hend
    have hlt : (stringLoop { s with current := s.current + 1 }).current < s.src.length := by
      have hx : ¬ ((stringLoop { s with current := s.current + 1 }).src.length ≤
          (stringLoop { s with current := s.current + 1 }).current) := by
        simpa [at_end] using hend
      rw [a1] at hx
      omega
    exact ⟨a1, a2, le_trans a4 (Nat.le_succ _), Nat.succ_le_succ (le_of_lt hlt),
      a6, a3⟩

theorem number_state (s : Scanner) (h : s.current ≤ s.src.length) :
    (number s).src = s.src ∧ (number s).start = s.start ∧
    s.current ≤ (number s).current ∧ (number s).current ≤ s.src.length ∧
    (number s).line = s.line ∧ (number s).hung = s.hung := by
  obtain ⟨l1, l2, l3, l4, l5, l6, l7, l8⟩ := digitsLoop_state s
  rw [number]
  generalize hd : digitsLoop s = t at *
  have a5 : t.current ≤ s.src.length := le_trans l7 (max_le h (le_refl _))
  split
  · rename_i hdot
    have hc : t.current < s.src.length := by
      have := current_lt_of_peek_ne t (by rw [hdot.1]; decide)
      rwa [l1] at this
    obtain ⟨m1, m2, m3, m4, m5, m6, m7, m8⟩ :=
      digitsLoop_state { t with current := t.current + 1 }
    have b1 : (digitsLoop { t with current := t.current + 1 }).src = s.src := by
      rw [m1]; exact l1
    have b2 : (digitsLoop { t with current := t.current + 1 }).start = s.start := by
      rw [m4]; exact l4
    have b3 : (digitsLoop { t with current := t.current + 1 }).hung = s.hung := by
      rw [m5]; exact l5
    have b4 : t.current + 1 ≤ (digitsLoop { t with current := t.current + 1 }).current := m6
    have b5 : (digitsLoop { t with current := t.current + 1 }).current
        ≤ max (t.current + 1) t.src.length := m7
    have b6 : (digitsLoop { t with current := t.current + 1 }).line = s.line := by
      rw [m8]; exact l8
    have hlen : t.src.length = s.src.length := by rw [l1]
    have b5' : (digitsLoop { t with current := t.current + 1 }).current ≤ s.src.length :=
      le_trans b5 (max_le (by omega) (by omega))
    exact ⟨b1, b2, le_trans l6 (le_trans (Nat.le_succ _) b4), b5', b6, b3⟩
  · exact ⟨l1, l4, l6, a5, l8, l5⟩

theorem identifier_state (s : Scanner) (h : s.current ≤ s.src.length) :
    (identifier s).src = s.src ∧ (identifier s).start = s.start ∧
    s.current ≤ (identifier s).current ∧ (identifier s).current ≤ s.src.length ∧
    (identifier s).line = s.line ∧ (identifier s).hung = s.hung := by
  obtain ⟨l1, l2, l3, l4, l5, l6, l7, l8⟩ := alnumLoop_state s
  have a5 : (alnumLoop s).current ≤ s.src.length := le_trans l7 (max_le h (le_refl _))
  rw [identifier]
  exact ⟨l1, l4, l6, a5, l8, l5⟩

end Scanner


namespace Scanner

theorem scan_token_state (s0 : Scanner) (h : s0.current < s0.src.length) :
    (scan_token s0).src = s0.src ∧ (scan_token s0).start = s0.start ∧
    s0.current + 1 ≤ (scan_token s0).current ∧
    (scan_token s0).current ≤ s0.src.length + 1 ∧
    s0.line ≤ (scan_token s0).line := by
  rw [scan_token]
  split
  -- '('
  · exact ⟨rfl, rfl, le_refl _, le_trans h (Nat.le_succ _), le_refl _⟩
  -- ')'
  · exact ⟨rfl, rfl, le_refl _, le_trans h (Nat.le_succ _), le_refl _⟩
  -- '{'
  · exact ⟨rfl, rfl, le_refl _, le_trans h (Nat.le_succ _), le_refl _⟩
  -- '}'
  · exact ⟨rfl, rfl, le_refl _, le_trans h (Nat.le_succ _), le_refl _⟩
  -- ','
  · exact ⟨rfl, rfl, le_refl _, le_trans h (Nat.le_succ _), le_refl _⟩
  -- '.'
  · exact ⟨rfl, rfl, le_refl _, le_trans h (Nat.le_succ _), le_refl _⟩
  -- '-'
  · exact ⟨rfl, rfl, le_refl _, le_trans h (Nat.le_succ _), le_refl _⟩
  -- '+'
  · exact ⟨rfl, rfl, le_refl _, le_trans h (Nat.le_succ _), le_refl _⟩
  -- ';'
  · exact ⟨rfl, rfl, le_refl _, le_trans h (Nat.le_succ _), le_refl _⟩
  -- '*'
  · exact ⟨rfl, rfl, le_refl _, le_trans h (Nat.le_succ _), le_refl _⟩
  -- '%'
  · exact ⟨rfl, rfl, le_refl _, le_trans h (Nat.le_succ _), le_refl _⟩
  -- '!'
  · by_cases hq : s0.src[s0.current + 1]?.getD '\x00' = '='
    · have h2 : s0.current + 1 < s0.src.length :=
        lt_length_of_getD_ne _ _ (by rw [hq]; decide)
      have hn : next_is '=' (eat s0).2 =
          (true, { s0 with current := s0.current + 1 + 1 }) := by
        simp [next_is, peek, eat, hq]
      rw [hn]
      exact ⟨rfl, rfl, Nat.le_succ_of_le (le_refl _), le_trans h2 (Nat.le_succ _),
        le_refl _⟩
    · have hn : next_is '=' (eat s0).2 = (false, (eat s0).2) := by
        simp [next_is, peek, eat, hq]
      rw [hn]
      exact ⟨rfl, rfl, le_refl _, le_trans h (Nat.le_succ _), le_refl _⟩
  -- '='
  · by_cases hq : s0.src[s0.current + 1]?.getD '\x00' = '='
    · have h2 : s0.current + 1 < s0.src.length :=
        lt_length_of_getD_ne _ _ (by rw [hq]; decide)
      have hn : next_is '=' (eat s0).2 =
          (true, { s0 with current := s0.current + 1 + 1 }) := by
        simp [next_is, peek, eat, hq]
      rw [hn]
      exact ⟨rfl, rfl, Nat.le_succ_of_le (le_refl _), le_trans h2 (Nat.le_succ _),
        le_refl _⟩
    · have hn : next_is '=' (eat s0).2 = (false, (eat s0).2) := by
        simp [next_is, peek, eat, hq]
      rw [hn]
      exact ⟨rfl, rfl, le_refl _, le_trans h (Nat.le_succ _), le_refl _⟩
  -- '<'
  · by_cases hq : s0.src[s0.current + 1]?.getD '\x00' = '='
    · have h2 : s0.current + 1 < s0.src.length :=
        lt_length_of_getD_ne _ _ (by rw [hq]; decide)
      have hn : next_is '=' (eat s0).2 =
          (true, { s0 with current := s0.current + 1 + 1 }) := by
        simp [next_is, peek, eat, hq]
      rw [hn]
      exact ⟨rfl, rfl, Nat.le_succ_of_le (le_refl _), le_trans h2 (Nat.le_succ _),
        le_refl _⟩
    · have hn : next_is '=' (eat s0).2 = (false, (eat s0).2) := by
        simp [next_is, peek, eat, hq]
      rw [hn]
      exact ⟨rfl, rfl, le_refl _, le_trans h (Nat.le_succ _), le_refl _⟩
  -- '>'
  · by_cases hq : s0.src[s0.current + 1]?.getD '\x00' = '='
    · have h2 : s0.current + 1 < s0.src.length :=
        lt_length_of_getD_ne _ _ (by rw [hq]; decide)
      have hn : next_is '=' (eat s0).2 =
          (true, { s0 with current := s0.current + 1 + 1 }) := by
        simp [next_is, peek, eat, hq]
      rw [hn]
      exact ⟨rfl, rfl, Nat.le_succ_of_le (le_refl _), le_trans h2 (Nat.le_succ _),
        le_refl _⟩
    · have hn : next_is '=' (eat s0).2 = (false, (eat s0).2) := by
        simp [next_is, peek, eat, hq]
      rw [hn]
      exact ⟨rfl, rfl, le_refl _, le_trans h (Nat.le_succ _), le_refl _⟩
  -- '/'
  · by_cases hq : s0.src[s0.current + 1]?.getD '\x00' = '/'
    · have h2 : s0.current + 1 < s0.src.length :=
        lt_length_of_getD_ne _ _ (by rw [hq]; decide)
      have hn : next_is '/' (eat s0).2 =
          (true, { s0 with current := s0.current + 1 + 1 }) := by
        simp [next_is, peek, eat, hq]
      simp only [hn, reduceIte]
      obtain ⟨m1, m2, m3, m4, m5, m6, m7, m8⟩ :=
        lineComment_state { s0 with current := s0.current + 1 + 1 }
          (by show s0.current + 1 + 1 ≤ s0.src.length; omega)
      have a1 : (lineComment { s0 with current := s0.current + 1 + 1 }).src = s0.src := m1
      have a4 : (lineComment { s0 with current := s0.current + 1 + 1 }).start = s0.start := m4
      have a6 : s0.current + 1 + 1 ≤
          (lineComment { s0 with current := s0.current + 1 + 1 }).current := m6
      have a7 : (lineComment { s0 with current := s0.current + 1 + 1 }).current
          ≤ s0.src.length := m7
      have a8 : (lineComment { s0 with current := s0.current + 1 + 1 }).line = s0.line := m8
      exact ⟨a1, a4, le_trans (Nat.le_succ _) a6, le_trans a7 (Nat.le_succ _),
        le_of_eq a8.symm⟩
    · have hn : next_is '/' (eat s0).2 = (false, (eat s0).2) := by
        simp [next_is, peek, eat, hq]
      by_cases hr : s0.src[s0.current + 1]?.getD '\x00' = '*'
      · have h2 : s0.current + 1 < s0.src.length :=
          lt_length_of_getD_ne _ _ (by rw [hr]; decide)
        have hn2 : next_is '*' (eat s0).2 =
            (true, { s0 with current := s0.current + 1 + 1 }) := by
          simp [next_is, peek, eat, hr]
        simp only [hn, hn2, Bool.false_eq_true, if_false, reduceIte]
        obtain ⟨m1, m2, m3, m4, m5, m6, m7⟩ :=
          block_comment_state { s0 with current := s0.current + 1 + 1 }
            (by show s0.current + 1 + 1 ≤ s0.src.length; omega)
        have a1 : (block_comment { s0 with current := s0.current + 1 + 1 }).src = s0.src := m1
        have a3 : (block_comment { s0 with current := s0.current + 1 + 1 }).start
            = s0.start := m3
        have a4 : s0.current + 1 + 1 ≤
            (block_comment { s0 with current := s0.current + 1 + 1 }).current := m4
        have a5 : (block_comment { s0 with current := s0.current + 1 + 1 }).current
            ≤ s0.src.length := m5
        have a6 : s0.line ≤ (block_comment { s0 with current := s0.current + 1 + 1 }).line := m6
        exact ⟨a1, a3, le_trans (Nat.le_succ _) a4, le_trans a5 (Nat.le_succ _), a6⟩
      · have hn2 : next_is '*' (eat s0).2 = (false, (eat s0).2) := by
          simp [next_is, peek, eat, hr]
        simp only [hn, hn2, Bool.false_eq_true, if_false, reduceIte]
        exact ⟨rfl, rfl, le_refl _, le_trans h (Nat.le_succ _), le_refl _⟩
  -- ' '
  · exact ⟨rfl, rfl, le_refl _, le_trans h (Nat.le_succ _), le_refl _⟩
  -- '\r'
  · exact ⟨rfl, rfl, le_refl _, le_trans h (Nat.le_succ _), le_refl _⟩
  -- '\t'
  · exact ⟨rfl, rfl, le_refl _, le_trans h (Nat.le_succ _), le_refl _⟩
  -- '\n'
  · exact ⟨rfl, rfl, le_refl _, le_trans h (Nat.le_succ _), Nat.le_succ _⟩
  -- '"'
  · obtain ⟨m1, m2, m3, m4, m5, m6⟩ :=
      string_state { s0 with current := s0.current + 1 }
        (by show s0.current + 1 ≤ s0.src.length; omega)
    have a1 : (string { s0 with current := s0.current + 1 }).src = s0.src := m1
    have a2 : (string { s0 with current := s0.current + 1 }).start = s0.start := m2
    have a3 : s0.current + 1 + 1 ≤
        (string { s0 with current := s0.current + 1 }).current := m3
    have a4 : (string { s0 with current := s0.current + 1 }).current
        ≤ s0.src.length + 1 := m4
    have a5 : s0.line ≤ (string { s0 with current := s0.current + 1 }).line := m5
    exact ⟨a1, a2, le_trans (Nat.le_succ _) a3, a4, a5⟩
  -- default: digit / alpha / unexpected character
  · split
    · obtain ⟨m1, m2, m3, m4, m5, m6⟩ :=
        number_state { s0 with current := s0.current + 1 }
          (by show s0.current + 1 ≤ s0.src.length; omega)
      have a1 : (number { s0 with current := s0.current + 1 }).src = s0.src := m1
      have a2 : (number { s0 with current := s0.current + 1 }).start = s0.start := m2
      have a3 : s0.current + 1 ≤ (number { s0 with current := s0.current + 1 }).current := m3
      have a4 : (number { s0 with current := s0.current + 1 }).current ≤ s0.src.length := m4
      have a5 : (number { s0 with current := s0.current + 1 }).line = s0.line := m5
      exact ⟨a1, a2, a3, le_trans a4 (Nat.le_succ _), le_of_eq a5.symm⟩
    · split
      · obtain ⟨m1, m2, m3, m4, m5, m6⟩ :=
          identifier_state { s0 with current := s0.current + 1 }
            (by show s0.current + 1 ≤ s0.src.length; omega)
        have a1 : (identifier { s0 with current := s0.current + 1 }).src = s0.src := m1
        have a2 : (identifier { s0 with current := s0.current + 1 }).start = s0.start := m2
        have a3 : s0.current + 1 ≤
            (identifier { s0 with current := s0.current + 1 }).current := m3
        have a4 : (identifier { s0 with current := s0.current + 1 }).current
            ≤ s0.src.length := m4
        have a5 : (identifier { s0 with current := s0.current + 1 }).line = s0.line := m5
        exact ⟨a1, a2, a3, le_trans a4 (Nat.le_succ _), le_of_eq a5.symm⟩
      · exact ⟨rfl, rfl, le_refl _, le_trans h (Nat.le_succ _), le_refl _⟩

end Scanner


namespace Scanner

theorem scanLoopGo_state : ∀ (g : Nat) (s : Scanner),
    (scanLoopGo g s).src = s.src ∧ s.line ≤ (scanLoopGo g s).line ∧
    (s.start ≤ s.current → s.current ≤ s.src.length + 1 →
      (scanLoopGo g s).start ≤ (scanLoopGo g s).current ∧
      (scanLoopGo g s).current ≤ s.src.length + 1) := by
  intro g
  induction g with
  | zero => intro s; exact ⟨rfl, le_refl _, fun h1 h2 => ⟨h1, h2⟩⟩
  | succ g ih =>
    intro s
    rw [scanLoopGo]
    split
    · exact ⟨rfl, le_refl _, fun h1 h2 => ⟨h1, h2⟩⟩
    · rename_i hend
      have hlt : s.current < s.src.length := by simpa [at_end] using hend
      obtain ⟨t1, t2, t3, t4, t5⟩ := scan_token_state s hlt
      generalize hg : scan_token s = s' at *
      by_cases hh : s'.hung = true
      · simp only [if_pos hh]
        refine ⟨t1, t5, fun h1 h2 => ⟨?_, t4⟩⟩
        rw [t2]
        omega
      · simp only [if_neg hh]
        obtain ⟨i1, i2, i3⟩ := ih { s' with start := s'.current }
        have b1 : (scanLoopGo g { s' with start := s'.current }).src = s'.src := i1
        have b2 : s'.line ≤ (scanLoopGo g { s' with start := s'.current }).line := i2
        have hx : s'.current ≤ s'.src.length + 1 := by rw [t1]; exact t4
        obtain ⟨c1, c2⟩ := i3 (le_refl _) hx
        have c2' : (scanLoopGo g { s' with start := s'.current }).current
            ≤ s'.src.length + 1 := c2
        have hy : s'.src.length = s.src.length := by rw [t1]
        refine ⟨by rw [b1, t1], le_trans t5 b2, fun h1 h2 => ⟨c1, ?_⟩⟩
        omega

theorem scanLoopGo_succ (k : Nat) (s : Scanner) : scanLoopGo (k + 1) s =
    if at_end s = true then s
    else
      (if (scan_token s).hung = true then scan_token s
       else scanLoopGo k { scan_token s with start := (scan_token s).current }) := by
  rw [scanLoopGo]

theorem scanLoopGo_stable : ∀ (g : Nat) (s : Scanner),
    s.src.length + 1 - s.current ≤ g → scanLoopGo (g + 1) s = scanLoopGo g s := by
  intro g
  induction g with
  | zero =>
    intro s hgas
    have hend : at_end s = true := by simp [at_end]; omega
    rw [scanLoopGo_succ, if_pos hend]
    rfl
  | succ g ih =>
    intro s hgas
    rw [scanLoopGo_succ (g + 1) s, scanLoopGo_succ g s]
    by_cases hend : at_end s = true
    · rw [if_pos hend, if_pos hend]
    · have hlt : s.current < s.src.length := by simpa [at_end] using hend
      obtain ⟨t1, t2, t3, t4, t5⟩ := scan_token_state s hlt
      rw [if_neg hend, if_neg hend]
      by_cases hh : (scan_token s).hung = true
      · rw [if_pos hh, if_pos hh]
      · rw [if_neg hh, if_neg hh]
        refine ih { scan_token s with start := (scan_token s).current } ?_
        have e1 : ({ scan_token s with start := (scan_token s).current } : Scanner).src
            = s.src := t1
        have e2 : s.current + 1 ≤
            ({ scan_token s with start := (scan_token s).current } : Scanner).current := t3
        have e3 : ({ scan_token s with start := (scan_token s).current } : Scanner).src.length
            = s.src.length := by rw [e1]
        omega

theorem scanLoopGo_eq_scanLoop : ∀ (g : Nat) (s : Scanner),
    s.src.length + 1 - s.current ≤ g → scanLoopGo g s = scanLoop s := by
  intro g
  induction g with
  | zero =>
    intro s hgas
    rw [scanLoop]
    have h0 : s.src.length + 1 - s.current = 0 := by omega
    rw [h0]
  | succ g ih =>
    intro s hgas
    rcases Nat.lt_or_ge g (s.src.length + 1 - s.current) with hlt | hge
    · have hg1 : g + 1 = s.src.length + 1 - s.current := by omega
      rw [scanLoop, ← hg1]
    · rw [scanLoopGo_stable g s hge]
      exact ih s hge

end Scanner


namespace Scanner

theorem scan_tokens_fields (s : Scanner) :
    (scan_tokens s).start = (scanLoop s).start ∧
    (scan_tokens s).current = (scanLoop s).current ∧
    (scan_tokens s).line = (scanLoop s).line ∧
    (scan_tokens s).src = (scanLoop s).src ∧
    (scan_tokens s).errors = (scanLoop s).errors ∧
    (scan_tokens s).hung = (scanLoop s).hung := by
  rw [scan_tokens]
  split
  · exact ⟨rfl, rfl, rfl, rfl, rfl, rfl⟩
  · exact ⟨rfl, rfl, rfl, rfl, rfl, rfl⟩

theorem scanLoop_state (s : Scanner) :
    (scanLoop s).src = s.src ∧ s.line ≤ (scanLoop s).line ∧
    (s.start ≤ s.current → s.current ≤ s.src.length + 1 →
      (scanLoop s).start ≤ (scanLoop s).current ∧
      (scanLoop s).current ≤ s.src.length + 1) := by
  rw [scanLoop]
  exact scanLoopGo_state _ s

end Scanner

/-- C2 counterexample: the scan of a closed string literal emits a string
token whose lexeme KEEPS the surrounding quote characters, contradicting
the claim that the quotes are excluded. -/
theorem c2_counterexample :
    scanned (str "\"ab\"") = some [⟨.Str, str "\"ab\""⟩, ⟨.EOF, []⟩] ∧
    ¬ scanned (str "\"ab\"") = some [⟨.Str, str "ab"⟩, ⟨.EOF, []⟩] := by decide

/-- C3 counterexample, two independent failures.  First: scanning a
string literal whose first content character is a newline consumes that
newline (the final cursor sits past the whole four-character input) but
never increments the line counter: the final line is still 1 where the
claim demands 2.  Second: inside a block comment a stray `/` is eaten by
the failed closing probe, after which the following character — here a
newline — is consumed blindly, without the newline check: the whole
eight-character comment is consumed yet the line stays 1 where the claim
demands 2. -/
theorem c3_counterexample :
    ((scanState (str "\"\na\"")).line = 1 ∧
     (scanState (str "\"\na\"")).current = 4) ∧
    ((scanState (str "/* /\n */")).line = 1 ∧
     (scanState (str "/* /\n */")).current = 8) := by decide

/-- C4 counterexample: the source consisting exactly of the well-nested
block comment with body a lone star does not scan to the claimed
EOF-only token list; the comment matcher consumes the first closing star
in the guard and the second in the body, misses the closer and hangs. -/
theorem c4_counterexample :
    scanned (str "/***/") = none ∧
    ¬ scanned (str "/***/") = some [⟨.EOF, []⟩] := by decide

/-- C4 (amended): block comments nest as exhibited by the spec's example:
the nested comment source scans to zero tokens for the whole span
followed by the single EOF token, with no diagnostics; but comment text
in which a star directly abuts the closing star-slash defeats the
matcher, so the universal form of the claim fails (see the
counterexample). -/
theorem c4_nested_comment_example :
    scanned (str "/* a /* b */ c */") = some [⟨.EOF, []⟩] ∧
    (scanState (str "/* a /* b */ c */")).errors = [] := by decide

/-- C6 counterexample: after scanning the one-character source consisting
of a lone opening quote, the cursor stands at 2 while the source length
is 1, violating the claimed invariant that the cursor never passes the
end of the source. -/
theorem c6_counterexample :
    (scanState (str "\"")).current = 2 ∧ (str "\"").length = 1 := by decide

/-- C6 (amended): at every observation point of a pass (after any number
of scan steps, and in the final state) the cursor fields satisfy
start ≤ current ≤ length(source) + 1; the bound length + 1 is reached
only through a string literal opened at the last character. -/
theorem c6_cursor_invariant :
    ∀ (src : List Char) (g : Nat),
      ((Scanner.scanLoopGo g (Scanner.new src)).start ≤
        (Scanner.scanLoopGo g (Scanner.new src)).current ∧
       (Scanner.scanLoopGo g (Scanner.new src)).current ≤ src.length + 1) ∧
      ((scanState src).start ≤ (scanState src).current ∧
       (scanState src).current ≤ src.length + 1) := by
  intro src g
  constructor
  · obtain ⟨-, -, h3⟩ := Scanner.scanLoopGo_state g (Scanner.new src)
    exact h3 (le_refl _) (by show (0 : Nat) ≤ src.length + 1; omega)
  · obtain ⟨h1, h2, -, -, -, -⟩ := Scanner.scan_tokens_fields (Scanner.new src)
    obtain ⟨-, -, h3⟩ := Scanner.scanLoop_state (Scanner.new src)
    obtain ⟨k1, k2⟩ := h3 (le_refl _) (by show (0 : Nat) ≤ src.length + 1; omega)
    rw [scanState, h1, h2]
    exact ⟨k1, k2⟩

/-- C7 counterexample: the scan of a source with the same identifier on
line 1 and on line 2 yields two completely identical token records: a
token does not carry the line its first character appears on (the line
field of the Rust Token struct is commented out), so the claimed
`(kind, lexeme, line)` record shape is wrong. -/
theorem c7_counterexample :
    (scanState (str "a\na")).tokens =
      [⟨.Identifier, str "a"⟩, ⟨.Identifier, str "a"⟩, ⟨.EOF, []⟩] ∧
    (scanState (str "a\na")).tokens.getD 0 default =
      (scanState (str "a\na")).tokens.getD 1 default := by decide

/-- C7 (amended): every emitted token is an immutable record of kind and
lexeme only — two tokens agreeing on kind and lexeme are equal — and
add_token records the kind it is passed together with the source slice
from start to current as lexeme. -/
theorem c7_token_record :
    (∀ t₁ t₂ : Token, t₁.token_type = t₂.token_type → t₁.lexeme = t₂.lexeme → t₁ = t₂) ∧
    (∀ (s : Scanner) (tt : TokenType),
      (Scanner.add_token s tt).tokens =
        s.tokens ++ [⟨tt, (s.src.drop s.start).take (s.current - s.start)⟩]) := by
  constructor
  · intro t₁ t₂ h1 h2
    cases t₁
    cases t₂
    simp only at h1 h2
    rw [h1, h2]
  · intro s tt
    rfl

/-- C7 witness: the amended theorem applied at a concrete pair of equal
tokens. -/
theorem c7_witness : (⟨.Dot, str "."⟩ : Token) = ⟨.Dot, str "."⟩ :=
  c7_token_record.1 ⟨.Dot, str "."⟩ ⟨.Dot, str "."⟩ rfl rfl

/-- C8: the claim asserts that no lexical error ever aborts the pass.
Recovery does hold for UnexpectedCharacter (two independent diagnostics
in one pass, then EOF), but an UnterminatedComment puts the scanner into
an infinite error loop: the pass on an unclosed block comment never
completes, so the claim fails for that error kind. -/
theorem c8_errors_and_recovery :
    (scanState (str "@#")).errors =
      [(1, .UnexpectedCharacter '@'), (1, .UnexpectedCharacter '#')] ∧
    scanned (str "@#") = some [⟨.EOF, []⟩] ∧
    scanned (str "/*") = none := by decide


/-- C10: rustize is a left inverse of clike_enum on every TokenType
variant, hence clike_enum is injective, and iterating the inclusive
range from And to While (via the Step impl, as Scanner::new does)
enumerates exactly the seventeen keyword variants between And and While
in declaration order — so the keyword table maps each reserved word to
its variant. -/
theorem c10_clike_rustize_roundtrip :
    (∀ tt : TokenType, TokenType.rustize tt.clike_enum = some tt) ∧
    Function.Injective TokenType.clike_enum ∧
    rangeIncl .And .While 41 =
      [.And, .Assert, .Class, .Else, .False, .Fun, .For, .If, .Nil, .Or,
       .Print, .Return, .Super, .This, .True, .Var, .While] ∧
    keyword_table =
      [(str "and", .And), (str "assert", .Assert), (str "class", .Class),
       (str "else", .Else), (str "false", .False), (str "fun", .Fun),
       (str "for", .For), (str "if", .If), (str "nil", .Nil),
       (str "or", .Or), (str "print", .Print), (str "return", .Return),
       (str "super", .Super), (str "this", .This), (str "true", .True),
       (str "var", .Var), (str "while", .While)] := by
  have hli : Function.LeftInverse
      (fun n => (TokenType.rustize n).getD TokenType.EOF) TokenType.clike_enum := by
    intro tt
    cases tt <;> rfl
  exact ⟨fun tt => by cases tt <;> rfl, hli.injective, by decide, by decide⟩

/-- C10 witness: the injectivity half applied at a concrete pair with its
equality hypothesis discharged by rfl. -/
theorem c10_witness : TokenType.And = TokenType.And :=
  c10_clike_rustize_roundtrip.2.1
    (show TokenType.clike_enum .And = TokenType.clike_enum .And from rfl)


namespace Scanner

theorem peek_oob (s : Scanner) (h : s.src.length ≤ s.current) : peek s = '\x00' := by
  have hn : s.src[s.current]? = none := List.getElem?_eq_none (by omega)
  simp [peek, List.getD, hn]

theorem digitsLoopGo_not_digit : ∀ (g : Nat) (s : Scanner),
    s.src.length ≤ s.current + g → is_digit (peek (digitsLoopGo s g)) = false := by
  intro g
  induction g with
  | zero =>
    intro s h
    rw [digitsLoopGo, peek_oob s (by omega)]
    decide
  | succ g ih =>
    intro s h
    rw [digitsLoopGo]
    split
    · exact ih { s with current := s.current + 1 } (by show s.src.length ≤ s.current + 1 + g; omega)
    · rename_i hd
      simpa using hd

theorem digitsLoopGo_digits : ∀ (g : Nat) (s : Scanner) (k : Nat),
    s.current ≤ k → k < (digitsLoopGo s g).current →
    is_digit (s.src.getD k '\x00') = true := by
  intro g
  induction g with
  | zero =>
    intro s k h1 h2
    rw [digitsLoopGo] at h2
    omega
  | succ g ih =>
    intro s k h1 h2
    rw [digitsLoopGo] at h2
    split at h2
    · rename_i hd
      rcases Nat.eq_or_lt_of_le h1 with he | hlt
      · rw [← he]
        simpa [peek] using hd
      · exact ih { s with current := s.current + 1 } k
          (by show s.current + 1 ≤ k; omega) h2
    · omega

end Scanner

/-- C9: number scanning consumes a maximal run of decimal digits — after
the digit loop the next character is not a digit, and every character the
loop stepped over is a digit — and the decimal point is consumed exactly
when a digit follows it: "3.14" scans to one Number token with lexeme
"3.14", while "3." scans to Number "3" followed by a separate Dot token. -/
theorem c9_number_scanning :
    (∀ s : Scanner,
      Scanner.is_digit (Scanner.peek (Scanner.digitsLoop s)) = false ∧
      (∀ k, s.current ≤ k → k < (Scanner.digitsLoop s).current →
        Scanner.is_digit (s.src.getD k '\x00') = true)) ∧
    scanned (str "3.14") = some [⟨.Number, str "3.14"⟩, ⟨.EOF, []⟩] ∧
    scanned (str "3.") =
      some [⟨.Number, str "3"⟩, ⟨.Dot, str "."⟩, ⟨.EOF, []⟩] := by
  refine ⟨fun s => ⟨?_, fun k h1 h2 => ?_⟩, by decide, by decide⟩
  · rw [Scanner.digitsLoop]
    exact Scanner.digitsLoopGo_not_digit _ s (by omega)
  · rw [Scanner.digitsLoop] at h2
    exact Scanner.digitsLoopGo_digits _ s k h1 h2

/-- C9 witness: the maximal-run facts instantiated on the concrete source
"12a": the loop stops on the letter, and position 1, stepped over by the
loop, holds a digit. -/
theorem c9_witness :
    Scanner.is_digit (Scanner.peek (Scanner.digitsLoop (Scanner.new (str "12a")))) = false ∧
    Scanner.is_digit ((Scanner.new (str "12a")).src.getD 1 '\x00') = true :=
  ⟨(c9_number_scanning.1 (Scanner.new (str "12a"))).1,
   (c9_number_scanning.1 (Scanner.new (str "12a"))).2 1 (by decide) (by decide)⟩


namespace Scanner

theorem stringLoopGo_closes : ∀ (g : Nat) (s : Scanner) (j : Nat),
    s.current ≤ j → j < s.src.length → s.src.getD j '\x00' = '"' →
    (∀ k, s.current ≤ k → k < j → s.src.getD k '\x00' ≠ '"') →
    j - s.current ≤ g →
    (stringLoopGo s g).current = j ∧
    (stringLoopGo s g).line =
      s.line + ((s.src.drop s.current).take (j - s.current)).count '\n' := by
  intro g
  induction g with
  | zero =>
    intro s j h1 h2 h3 h4 h5
    have hj : s.current = j := by omega
    rw [stringLoopGo, ← hj, Nat.sub_self]
    simp
  | succ g ih =>
    intro s j h1 h2 h3 h4 h5
    rw [stringLoopGo]
    split
    · rename_i hcond
      have hj : s.current = j := by
        by_contra hne
        have hlt : s.current < j := by omega
        rcases hcond with hq | hend
        · exact h4 s.current (le_refl _) hlt (by simpa [peek, List.getD] using hq)
        · have : s.src.length ≤ s.current := by simpa [at_end] using hend
          omega
      rw [← hj, Nat.sub_self]
      simp
    · rename_i hcond
      have hlt : s.current < j := by
        rcases Nat.eq_or_lt_of_le h1 with he | h0
        · exfalso
          apply hcond
          left
          show peek s = '"'
          rw [peek, he]
          exact h3
        · exact h0
      have hcur : s.current < s.src.length := by omega
      obtain ⟨i1, i2⟩ :=
        ih { s with line := if peek s = '\n' then s.line + 1 else s.line,
                    current := s.current + 1 } j
          (by show s.current + 1 ≤ j; omega) h2 h3
          (fun k hk1 hk2 => h4 k (le_trans (Nat.le_succ _) hk1) hk2)
          (by show j - (s.current + 1) ≤ g; omega)
      refine ⟨i1, ?_⟩
      have i2' : (stringLoopGo
          { s with line := if peek s = '\n' then s.line + 1 else s.line,
                   current := s.current + 1 } g).line =
          (if peek s = '\n' then s.line + 1 else s.line) +
            ((s.src.drop (s.current + 1)).take (j - (s.current + 1))).count '\n' := i2
      rw [i2']
      have hsplit : (s.src.drop s.current).take (j - s.current)
          = s.src.getD s.current '\x00' ::
            ((s.src.drop (s.current + 1)).take (j - (s.current + 1))) := by
        have h9 : s.src.drop s.current = s.src[s.current] :: s.src.drop (s.current + 1) :=
          List.drop_eq_getElem_cons hcur
        rw [h9, show j - s.current = (j - (s.current + 1)) + 1 from by omega,
          List.take_succ_cons]
        congr 1
        simp [List.getD, List.getElem?_eq_getElem hcur]
      clear i2
      rw [hsplit, List.count_cons]
      have hpk : peek s = s.src.getD s.current '\x00' := rfl
      by_cases hnl : s.src[s.current]?.getD '\x00' = '\n'
      · simp [hpk, hnl, List.getD]
        omega
      · simp [hpk, hnl, List.getD]

theorem stringLoopGo_to_end : ∀ (g : Nat) (s : Scanner),
    (∀ k, s.current ≤ k → k < s.src.length → s.src.getD k '\x00' ≠ '"') →
    s.src.length - s.current ≤ g →
    (stringLoopGo s g).current = max s.current s.src.length ∧
    (stringLoopGo s g).line = s.line + (s.src.drop s.current).count '\n' := by
  intro g
  induction g with
  | zero =>
    intro s h1 h2
    rw [stringLoopGo]
    constructor
    · omega
    · rw [List.drop_eq_nil_of_le (by omega)]
      simp
  | succ g ih =>
    intro s h1 h2
    rw [stringLoopGo]
    split
    · rename_i hcond
      have hend : s.src.length ≤ s.current := by
        rcases hcond with hq | hend
        · by_contra hne
          exact h1 s.current (le_refl _) (by omega) (by simpa [peek, List.getD] using hq)
        · simpa [at_end] using hend
      constructor
      · omega
      · rw [List.drop_eq_nil_of_le (by omega)]
        simp
    · rename_i hcond
      have hcur : s.current < s.src.length := by
        rcases not_or.mp hcond with ⟨-, hend⟩
        simpa [at_end] using hend
      obtain ⟨i1, i2⟩ :=
        ih { s with line := if peek s = '\n' then s.line + 1 else s.line,
                    current := s.current + 1 }
          (fun k hk1 hk2 => h1 k (le_trans (Nat.le_succ _) hk1) hk2)
          (by show s.src.length - (s.current + 1) ≤ g; omega)
      have i1' : (stringLoopGo
          { s with line := if peek s = '\n' then s.line + 1 else s.line,
                   current := s.current + 1 } g).current =
          max (s.current + 1) s.src.length := i1
      have i2' : (stringLoopGo
          { s with line := if peek s = '\n' then s.line + 1 else s.line,
                   current := s.current + 1 } g).line =
          (if peek s = '\n' then s.line + 1 else s.line) +
            (s.src.drop (s.current + 1)).count '\n' := i2
      constructor
      · rw [i1']
        omega
      · rw [i2']
        have hsplit : s.src.drop s.current
            = s.src.getD s.current '\x00' :: s.src.drop (s.current + 1) := by
          rw [List.drop_eq_getElem_cons hcur]
          congr 1
          simp [List.getD, List.getElem?_eq_getElem hcur]
        rw [hsplit, List.count_cons]
        have hpk : peek s = s.src.getD s.current '\x00' := rfl
        by_cases hnl : s.src[s.current]?.getD '\x00' = '\n'
        · simp [hpk, hnl, List.getD]
          omega
        · simp [hpk, hnl, List.getD]

end Scanner


/-- C2 (amended): for a string literal whose opening quote sits at `start`
(already consumed, so the cursor is at `start + 1`) and whose closing
quote is the first quote at a position `j` at least two past the opening
one (the character right after the opening quote is skipped without
inspection), the scanner emits one string token whose lexeme is the
source text from the opening quote through the closing quote INCLUSIVE —
the surrounding quotes are kept, not excluded — the cursor ends just past
the closing quote, no diagnostic is raised, and `line` grows by the
newlines strictly inside positions `start+2 .. j-1`. -/
theorem c2_string_lexeme_keeps_quotes (s : Scanner) (j : Nat)
    (hcur : s.current = s.start + 1)
    (_hq0 : s.src.getD s.start '\x00' = '"')
    (hj1 : s.start + 2 ≤ j) (hj2 : j < s.src.length)
    (hj3 : s.src.getD j '\x00' = '"')
    (hj4 : ∀ k, s.start + 2 ≤ k → k < j → s.src.getD k '\x00' ≠ '"') :
    (Scanner.string s).tokens =
      s.tokens ++ [⟨.Str, (s.src.drop s.start).take (j + 1 - s.start)⟩] ∧
    (Scanner.string s).current = j + 1 ∧
    (Scanner.string s).errors = s.errors ∧
    (Scanner.string s).line =
      s.line + ((s.src.drop (s.start + 2)).take (j - (s.start + 2))).count '\n' := by
  obtain ⟨c1, c2⟩ :=
    Scanner.stringLoopGo_closes (s.src.length - (s.current + 1))
      { s with current := s.current + 1 } j
      (by show s.current + 1 ≤ j; omega) hj2 hj3
      (fun k hk1 hk2 => hj4 k (by have hx : s.current + 1 ≤ k := hk1; omega) hk2)
      (by show j - (s.current + 1) ≤ s.src.length - (s.current + 1); omega)
  obtain ⟨l1, l2, l3, l4, l5, l6, l7, l8⟩ :=
    Scanner.stringLoop_state { s with current := s.current + 1 }
  have c1' : (Scanner.stringLoop { s with current := s.current + 1 }).current = j := by
    rw [Scanner.stringLoop]; exact c1
  have c2' : (Scanner.stringLoop { s with current := s.current + 1 }).line =
      s.line + ((s.src.drop (s.current + 1)).take (j - (s.current + 1))).count '\n' := by
    rw [Scanner.stringLoop]; exact c2
  have l1' : (Scanner.stringLoop { s with current := s.current + 1 }).src = s.src := l1
  have l2' : (Scanner.stringLoop { s with current := s.current + 1 }).tokens = s.tokens := l2
  have l3' : (Scanner.stringLoop { s with current := s.current + 1 }).errors = s.errors := l3
  have l4' : (Scanner.stringLoop { s with current := s.current + 1 }).start = s.start := l4
  have hne : ¬ (Scanner.at_end (Scanner.stringLoop { s with current := s.current + 1 }) = true) := by
    simp only [Scanner.at_end]
    rw [l1', c1']
    simp
    omega
  rw [Scanner.string, if_neg hne]
  refine ⟨?_, ?_, l3', ?_⟩
  · show (Scanner.stringLoop { s with current := s.current + 1 }).tokens ++
        [⟨.Str, ((Scanner.stringLoop { s with current := s.current + 1 }).src.drop
            (Scanner.stringLoop { s with current := s.current + 1 }).start).take
          ((Scanner.stringLoop { s with current := s.current + 1 }).current + 1 -
            (Scanner.stringLoop { s with current := s.current + 1 }).start)⟩] =
      s.tokens ++ [⟨.Str, (s.src.drop s.start).take (j + 1 - s.start)⟩]
    rw [l1', l2', l4', c1']
  · show (Scanner.stringLoop { s with current := s.current + 1 }).current + 1 = j + 1
    rw [c1']
  · show (Scanner.stringLoop { s with current := s.current + 1 }).line =
      s.line + ((s.src.drop (s.start + 2)).take (j - (s.start + 2))).count '\n'
    rw [c2', hcur]

/-- C2 witness: the amended theorem at the concrete literal source
consisting of quote, a, b, quote, with the closing quote at position 3:
the emitted lexeme is the whole four-character text, quotes included. -/
theorem c2_witness :
    (Scanner.string ⟨str "\"ab\"", [], 0, 1, 1, [], false⟩).tokens =
      [] ++ [⟨.Str, ((str "\"ab\"").drop 0).take (3 + 1 - 0)⟩] :=
  (c2_string_lexeme_keeps_quotes ⟨str "\"ab\"", [], 0, 1, 1, [], false⟩ 3
    rfl (by decide) (by decide) (by decide) (by decide)
    (fun k h1 h2 => by
      have h1' : 2 ≤ k := h1
      have h2' : k < 3 := h2
      interval_cases k
      decide)).1

/-- C5: if end of input is reached inside a string literal before any
closing quote (no quote occurs at or after the first content position),
the scanner raises exactly one UnterminatedString error carrying the text
from the literal's start to the end of the source, emits no token, and
leaves the cursor at end of input; concretely, the pass over the source
quote-a-b-c reports one UnterminatedString diagnostic containing "abc"
and produces only the EOF token. -/
theorem c5_unterminated_string :
    (∀ (s : Scanner),
      (∀ k, s.current + 1 ≤ k → k < s.src.length → s.src.getD k '\x00' ≠ '"') →
      (Scanner.string s).tokens = s.tokens ∧
      (Scanner.string s).errors = s.errors ++
        [(s.line + (s.src.drop (s.current + 1)).count '\n',
          .UnterminatedString (s.src.drop s.start))] ∧
      (Scanner.string s).current = max (s.current + 1) s.src.length ∧
      (Scanner.string s).hung = s.hung) ∧
    scanned (str "\"abc") = some [⟨.EOF, []⟩] ∧
    (scanState (str "\"abc")).errors = [(1, .UnterminatedString (str "\"abc"))] := by
  refine ⟨?_, by decide, by decide⟩
  intro s h4
  obtain ⟨i1, i2⟩ :=
    Scanner.stringLoopGo_to_end (s.src.length - (s.current + 1))
      { s with current := s.current + 1 }
      (fun k hk1 hk2 => h4 k (by have hx : s.current + 1 ≤ k := hk1; omega) hk2)
      (by show s.src.length - (s.current + 1) ≤ s.src.length - (s.current + 1); omega)
  obtain ⟨l1, l2, l3, l4, l5, l6, l7, l8⟩ :=
    Scanner.stringLoop_state { s with current := s.current + 1 }
  have i1' : (Scanner.stringLoop { s with current := s.current + 1 }).current =
      max (s.current + 1) s.src.length := by
    rw [Scanner.stringLoop]; exact i1
  have i2' : (Scanner.stringLoop { s with current := s.current + 1 }).line =
      s.line + (s.src.drop (s.current + 1)).count '\n' := by
    rw [Scanner.stringLoop]; exact i2
  have l1' : (Scanner.stringLoop { s with current := s.current + 1 }).src = s.src := l1
  have l2' : (Scanner.stringLoop { s with current := s.current + 1 }).tokens = s.tokens := l2
  have l3' : (Scanner.stringLoop { s with current := s.current + 1 }).errors = s.errors := l3
  have l4' : (Scanner.stringLoop { s with current := s.current + 1 }).start = s.start := l4
  have l5' : (Scanner.stringLoop { s with current := s.current + 1 }).hung = s.hung := l5
  have hend : Scanner.at_end (Scanner.stringLoop { s with current := s.current + 1 }) = true := by
    simp only [Scanner.at_end]
    rw [l1', i1']
    simp
  rw [Scanner.string, if_pos hend]
  exact ⟨l2', by rw [show (Scanner.error _ _).errors =
      (Scanner.stringLoop { s with current := s.current + 1 }).errors ++
      [((Scanner.stringLoop { s with current := s.current + 1 }).line,
        ErrorKind.UnterminatedString
          ((Scanner.stringLoop { s with current := s.current + 1 }).src.drop
            (Scanner.stringLoop { s with current := s.current + 1 }).start))] from rfl,
      l3', i2', l1', l4'], i1', l5'⟩

/-- C5 witness: the general statement instantiated at the scanner state
reached when the pass over quote-a-b-c enters string scanning: exactly
one UnterminatedString diagnostic is appended, carrying the whole
remaining text including the opening quote. -/
theorem c5_witness :
    (Scanner.string ⟨str "\"abc", [], 0, 1, 1, [], false⟩).errors =
      [] ++ [(1 + ((str "\"abc").drop 2).count '\n',
        .UnterminatedString ((str "\"abc").drop 0))] :=
  ((c5_unterminated_string.1 ⟨str "\"abc", [], 0, 1, 1, [], false⟩
    (fun k h1 h2 => by
      have h1' : 2 ≤ k := h1
      have h2' : k < 4 := h2
      interval_cases k <;> decide)).2).1

namespace Scanner

theorem lookup_mem_values {α β : Type} [BEq α] :
    ∀ (l : List (α × β)) (k : α) (v : β), l.lookup k = some v → v ∈ l.map Prod.snd := by
  intro l
  induction l with
  | nil => intro k v h; simp [List.lookup] at h
  | cons p es ih =>
    intro k v h
    obtain ⟨a, b⟩ := p
    rw [List.lookup] at h
    split at h
    · simp only [Option.some.injEq] at h
      subst h
      exact List.mem_cons_self _ _
    · exact List.mem_cons_of_mem _ (ih k v h)

theorem lookupD_ne_eof (txt : List Char) :
    (keyword_table.lookup txt).getD .Identifier ≠ TokenType.EOF := by
  rcases h : keyword_table.lookup txt with - | v
  · decide
  · have hmem := lookup_mem_values keyword_table txt v h
    have hall : ∀ x ∈ keyword_table.map Prod.snd, x ≠ TokenType.EOF := by decide
    simpa using hall v hmem

theorem add_token_no_eof (s : Scanner) (tt : TokenType)
    (hs : ∀ t ∈ s.tokens, t.token_type ≠ TokenType.EOF) (h : tt ≠ TokenType.EOF) :
    ∀ t ∈ (add_token s tt).tokens, t.token_type ≠ TokenType.EOF := by
  intro t ht
  rw [show (add_token s tt).tokens =
      s.tokens ++ [⟨tt, (s.src.drop s.start).take (s.current - s.start)⟩] from rfl] at ht
  rcases List.mem_append.mp ht with h1 | h2
  · exact hs t h1
  · simp only [List.mem_singleton] at h2
    subst h2
    exact h

theorem next_is_tokens (c : Char) (s : Scanner) : ((next_is c s).2).tokens = s.tokens := by
  rw [next_is]
  split <;> rfl

theorem string_no_eof (s : Scanner)
    (hs : ∀ t ∈ s.tokens, t.token_type ≠ TokenType.EOF) :
    ∀ t ∈ (string s).tokens, t.token_type ≠ TokenType.EOF := by
  obtain ⟨-, l2, -, -, -, -, -, -⟩ := stringLoop_state { s with current := s.current + 1 }
  have l2' : (stringLoop { s with current := s.current + 1 }).tokens = s.tokens := l2
  rw [string]
  split
  · intro t ht
    rw [show (error (stringLoop { s with current := s.current + 1 })
        (.UnterminatedString ((stringLoop { s with current := s.current + 1 }).src.drop
          (stringLoop { s with current := s.current + 1 }).start))).tokens =
        (stringLoop { s with current := s.current + 1 }).tokens from rfl, l2'] at ht
    exact hs t ht
  · refine add_token_no_eof _ .Str ?_ (by decide)
    intro t ht
    rw [show ({ stringLoop { s with current := s.current + 1 } with
        current := (stringLoop { s with current := s.current + 1 }).current + 1 } :
          Scanner).tokens =
        (stringLoop { s with current := s.current + 1 }).tokens from rfl, l2'] at ht
    exact hs t ht

theorem number_no_eof (s : Scanner)
    (hs : ∀ t ∈ s.tokens, t.token_type ≠ TokenType.EOF) :
    ∀ t ∈ (number s).tokens, t.token_type ≠ TokenType.EOF := by
  obtain ⟨-, l2, -, -, -, -, -, -⟩ := digitsLoop_state s
  rw [number]
  generalize hd : digitsLoop s = t0 at *
  split
  · obtain ⟨-, m2, -, -, -, -, -, -⟩ := digitsLoop_state { t0 with current := t0.current + 1 }
    have m2' : (digitsLoop { t0 with current := t0.current + 1 }).tokens = s.tokens := by
      rw [m2]
      exact l2
    refine add_token_no_eof _ .Number ?_ (by decide)
    rw [m2']
    exact hs
  · refine add_token_no_eof _ .Number ?_ (by decide)
    rw [l2]
    exact hs

theorem identifier_no_eof (s : Scanner)
    (hs : ∀ t ∈ s.tokens, t.token_type ≠ TokenType.EOF) :
    ∀ t ∈ (identifier s).tokens, t.token_type ≠ TokenType.EOF := by
  obtain ⟨-, l2, -, -, -, -, -, -⟩ := alnumLoop_state s
  rw [identifier]
  refine add_token_no_eof _ _ ?_ (lookupD_ne_eof _)
  rw [l2]
  exact hs

theorem scan_token_no_eof (s : Scanner)
    (hs : ∀ t ∈ s.tokens, t.token_type ≠ TokenType.EOF) :
    ∀ t ∈ (scan_token s).tokens, t.token_type ≠ TokenType.EOF := by
  rw [scan_token]
  split
  · exact add_token_no_eof _ _ hs (by decide)
  · exact add_token_no_eof _ _ hs (by decide)
  · exact add_token_no_eof _ _ hs (by decide)
  · exact add_token_no_eof _ _ hs (by decide)
  · exact add_token_no_eof _ _ hs (by decide)
  · exact add_token_no_eof _ _ hs (by decide)
  · exact add_token_no_eof _ _ hs (by decide)
  · exact add_token_no_eof _ _ hs (by decide)
  · exact add_token_no_eof _ _ hs (by decide)
  · exact add_token_no_eof _ _ hs (by decide)
  · exact add_token_no_eof _ _ hs (by decide)
  · refine add_token_no_eof _ _ ?_ (by split <;> decide)
    rw [next_is_tokens]
    exact hs
  · refine add_token_no_eof _ _ ?_ (by split <;> decide)
    rw [next_is_tokens]
    exact hs
  · refine add_token_no_eof _ _ ?_ (by split <;> decide)
    rw [next_is_tokens]
    exact hs
  · refine add_token_no_eof _ _ ?_ (by split <;> decide)
    rw [next_is_tokens]
    exact hs
  · show ∀ t ∈ (if (next_is '/' (eat s).2).1 = true
        then lineComment ((next_is '/' (eat s).2).2)
        else if (next_is '*' ((next_is '/' (eat s).2).2)).1 = true
          then block_comment ((next_is '*' ((next_is '/' (eat s).2).2)).2)
          else add_token ((next_is '*' ((next_is '/' (eat s).2).2)).2) TokenType.Slash).tokens,
      t.token_type ≠ TokenType.EOF
    split
    · obtain ⟨-, n2, -, -, -, -, -, -⟩ :=
        lineCommentGo_state (((next_is '/' (eat s).2).2).src.length -
          ((next_is '/' (eat s).2).2).current) ((next_is '/' (eat s).2).2)
      intro t ht
      rw [show lineComment ((next_is '/' (eat s).2).2) =
        lineCommentGo ((next_is '/' (eat s).2).2)
          (((next_is '/' (eat s).2).2).src.length -
            ((next_is '/' (eat s).2).2).current) from rfl] at ht
      rw [n2, next_is_tokens] at ht
      exact hs t ht
    · split
      · obtain ⟨-, b2, -, -, -, -, -⟩ :=
          blockGo_state (((next_is '*' ((next_is '/' (eat s).2).2)).2).src.length + 1 -
            ((next_is '*' ((next_is '/' (eat s).2).2)).2).current)
            ((next_is '*' ((next_is '/' (eat s).2).2)).2)
        intro t ht
        rw [show block_comment ((next_is '*' ((next_is '/' (eat s).2).2)).2) =
          blockGo (((next_is '*' ((next_is '/' (eat s).2).2)).2).src.length + 1 -
            ((next_is '*' ((next_is '/' (eat s).2).2)).2).current)
            ((next_is '*' ((next_is '/' (eat s).2).2)).2) from rfl] at ht
        rw [b2, next_is_tokens, next_is_tokens] at ht
        exact hs t ht
      · refine add_token_no_eof _ _ ?_ (by decide)
        rw [next_is_tokens, next_is_tokens]
        exact hs
  · exact hs
  · exact hs
  · exact hs
  · exact hs
  · exact string_no_eof _ hs
  · split
    · exact number_no_eof _ hs
    · split
      · exact identifier_no_eof _ hs
      · exact hs

end Scanner


namespace Scanner

theorem scanLoopGo_no_eof : ∀ (g : Nat) (s : Scanner),
    (∀ t ∈ s.tokens, t.token_type ≠ TokenType.EOF) →
    ∀ t ∈ (scanLoopGo g s).tokens, t.token_type ≠ TokenType.EOF := by
  intro g
  induction g with
  | zero => intro s hs; exact hs
  | succ g ih =>
    intro s hs
    rw [scanLoopGo_succ]
    split
    · exact hs
    · split
      · exact scan_token_no_eof s hs
      · exact ih { scan_token s with start := (scan_token s).current }
          (scan_token_no_eof s hs)

theorem scan_tokens_tokens (s : Scanner) (h : (scanLoop s).hung = false) :
    (scan_tokens s).tokens = (scanLoop s).tokens ++ [⟨.EOF, []⟩] := by
  show (if (scanLoop s).hung = true then scanLoop s
      else { scanLoop s with tokens := (scanLoop s).tokens ++ [⟨.EOF, []⟩] }).tokens =
    (scanLoop s).tokens ++ [⟨.EOF, []⟩]
  rw [if_neg (by simp [h])]

end Scanner

/-- C1: the claim asserts that scanning terminates for every input and that
the output ends with exactly one EOF token.  The EOF half holds: whenever
the pass returns a token list at all, that list is a run of non-EOF
tokens followed by exactly one EOF token with empty lexeme.  But the
termination half is false: on the spec's own example source consisting of
an unterminated block comment, the error branch of the comment loop
advances nothing and the loop repeats forever, so the pass hangs and no
token list is ever returned. -/
theorem c1_unterminated_comment_hangs :
    scanned (str "/* a") = none ∧
    (∀ (src : List Char) (ts : List Token), scanned src = some ts →
      ∃ ts', ts = ts' ++ [⟨.EOF, []⟩] ∧ ∀ t ∈ ts', t.token_type ≠ TokenType.EOF) := by
  refine ⟨by decide, ?_⟩
  intro src ts h
  rw [scanned] at h
  by_cases hh : (scanState src).hung = true
  · rw [if_pos hh] at h
    exact absurd h (by simp)
  · rw [if_neg hh] at h
    simp only [Option.some.injEq] at h
    subst h
    have hx : (Scanner.scan_tokens (Scanner.new src)).hung =
        (Scanner.scanLoop (Scanner.new src)).hung :=
      (Scanner.scan_tokens_fields (Scanner.new src)).2.2.2.2.2
    have h0 : (scanState src).hung = false := by
      revert hh
      cases (scanState src).hung <;> simp
    have hhung : (Scanner.scanLoop (Scanner.new src)).hung = false := by
      rw [← hx]
      exact h0
    refine ⟨(Scanner.scanLoop (Scanner.new src)).tokens,
      Scanner.scan_tokens_tokens (Scanner.new src) hhung, ?_⟩
    have hnil : ∀ t ∈ (Scanner.new src).tokens, t.token_type ≠ TokenType.EOF := by
      intro t ht
      simp [Scanner.new] at ht
    rw [Scanner.scanLoop]
    exact Scanner.scanLoopGo_no_eof _ _ hnil

/-- C1 witness: the EOF-shape half applied on the empty source, whose pass
returns exactly the one EOF token. -/
theorem c1_witness :
    ∃ ts', ([⟨.EOF, []⟩] : List Token) = ts' ++ [⟨.EOF, []⟩] ∧
      ∀ t ∈ ts', t.token_type ≠ TokenType.EOF :=
  c1_unterminated_comment_hangs.2 [] [⟨.EOF, []⟩] (by decide)


theorem nlCount_self (l : List Char) (a : Nat) : nlCount l a a = 0 := by
  simp [nlCount]

theorem nlCount_succ (l : List Char) (a : Nat) :
    nlCount l a (a + 1) = if l.getD a '\x00' = '\n' then 1 else 0 := by
  rw [nlCount, Nat.add_sub_cancel_left]
  by_cases h : a < l.length
  · rw [List.drop_eq_getElem_cons h, List.take_succ_cons, List.take_zero,
      List.count_cons, List.count_nil]
    have hg : l.getD a '\x00' = l[a] := by
      simp [List.getD, List.getElem?_eq_getElem h]
    rw [hg]
    by_cases hnl : l[a] = '\n'
    · simp [hnl]
    · simp [hnl]
  · rw [List.drop_eq_nil_of_le (by omega)]
    have hg : l.getD a '\x00' = '\x00' := by
      have hn : l[a]? = none := List.getElem?_eq_none (by omega)
      simp [List.getD, hn]
    rw [hg]
    simp

theorem nlCount_add (l : List Char) (a b c : Nat) (h1 : a ≤ b) (h2 : b ≤ c) :
    nlCount l a c = nlCount l a b + nlCount l b c := by
  rw [nlCount, nlCount, nlCount,
    show c - a = (b - a) + (c - b) from by omega, List.take_add, List.count_append]
  congr 2
  rw [List.drop_drop, show a + (b - a) = b from by omega]

theorem nlCount_zero_of_no_newline (l : List Char) (a b : Nat)
    (h : ∀ k, a ≤ k → k < b → l.getD k '\x00' ≠ '\n') : nlCount l a b = 0 := by
  rw [nlCount, List.count_eq_zero]
  intro hmem
  obtain ⟨i, hi⟩ := List.getElem?_of_mem hmem
  have hilen : i < ((l.drop a).take (b - a)).length := by
    by_contra hc
    rw [List.getElem?_eq_none (by omega)] at hi
    exact Option.noConfusion hi
  have hib : i < b - a := lt_of_lt_of_le hilen (by simp [List.length_take])
  have hx2 : l[a + i]? = some '\n' := by
    rw [List.getElem?_take] at hi
    rw [if_pos hib] at hi
    rw [List.getElem?_drop] at hi
    exact hi
  have hne := h (a + i) (by omega) (by omega)
  rw [List.getD_eq_getElem?_getD, hx2] at hne
  simp at hne


namespace Scanner

theorem alnumLoopGo_alnum : ∀ (g : Nat) (s : Scanner) (k : Nat),
    s.current ≤ k → k < (alnumLoopGo s g).current →
    is_alphanumeric (s.src.getD k '\x00') = true := by
  intro g
  induction g with
  | zero =>
    intro s k h1 h2
    rw [alnumLoopGo] at h2
    omega
  | succ g ih =>
    intro s k h1 h2
    rw [alnumLoopGo] at h2
    split at h2
    · rename_i hd
      rcases Nat.eq_or_lt_of_le h1 with he | hlt
      · rw [← he]
        simpa [peek] using hd
      · exact ih { s with current := s.current + 1 } k
          (by show s.current + 1 ≤ k; omega) h2
    · omega

theorem lineCommentGo_no_newline : ∀ (g : Nat) (s : Scanner) (k : Nat),
    s.current ≤ k → k < (lineCommentGo s g).current →
    s.src.getD k '\x00' ≠ '\n' := by
  intro g
  induction g with
  | zero =>
    intro s k h1 h2
    rw [lineCommentGo] at h2
    omega
  | succ g ih =>
    intro s k h1 h2
    rw [lineCommentGo] at h2
    split at h2
    · rename_i hd
      rcases Nat.eq_or_lt_of_le h1 with he | hlt
      · rw [← he]
        simpa [peek] using hd.1
      · exact ih { s with current := s.current + 1 } k
          (by show s.current + 1 ≤ k; omega) h2
    · omega

theorem digitsLoop_line_count (s : Scanner) :
    (digitsLoop s).line = s.line + nlCount s.src s.current (digitsLoop s).current := by
  obtain ⟨l1, -, -, -, -, l6, -, l8⟩ := digitsLoop_state s
  rw [l8, nlCount_zero_of_no_newline]
  · simp
  · intro k h1 h2
    have hd : is_digit (s.src.getD k '\x00') = true := by
      rw [digitsLoop] at h2
      exact digitsLoopGo_digits _ s k h1 h2
    intro hk
    rw [hk] at hd
    exact absurd hd (by decide)

theorem alnumLoop_line_count (s : Scanner) :
    (alnumLoop s).line = s.line + nlCount s.src s.current (alnumLoop s).current := by
  obtain ⟨l1, -, -, -, -, l6, -, l8⟩ := alnumLoop_state s
  rw [l8, nlCount_zero_of_no_newline]
  · simp
  · intro k h1 h2
    have hd : is_alphanumeric (s.src.getD k '\x00') = true := by
      rw [alnumLoop] at h2
      exact alnumLoopGo_alnum _ s k h1 h2
    intro hk
    rw [hk] at hd
    exact absurd hd (by decide)

theorem lineComment_line_count (s : Scanner) :
    (lineComment s).line = s.line + nlCount s.src s.current (lineComment s).current := by
  obtain ⟨-, -, -, -, -, -, -, l8⟩ :=
    lineCommentGo_state (s.src.length - s.current) s
  rw [lineComment, l8, nlCount_zero_of_no_newline]
  · simp
  · intro k h1 h2
    exact lineCommentGo_no_newline _ s k h1 h2

end Scanner

end Lox

namespace Lox
namespace Scanner

theorem digitsLoop_digits (s : Scanner) (k : Nat) (h1 : s.current ≤ k)
    (h2 : k < (digitsLoop s).current) : is_digit (s.src.getD k '\x00') = true := by
  rw [digitsLoop] at h2
  exact digitsLoopGo_digits _ s k h1 h2

theorem number_line (s : Scanner) : (number s).line = s.line := by
  obtain ⟨l1, -, -, -, -, -, -, l8⟩ := digitsLoop_state s
  rw [number]
  generalize hd : digitsLoop s = t at *
  split
  · have b6 : (digitsLoop { t with current := t.current + 1 }).line = t.line :=
      (digitsLoop_state _).2.2.2.2.2.2.2
    show (digitsLoop { t with current := t.current + 1 }).line = s.line
    rw [b6]; exact l8
  · exact l8

theorem number_no_newline (s : Scanner) (k : Nat)
    (hk1 : s.current ≤ k) (hk2 : k < (number s).current) :
    s.src.getD k '\x00' ≠ '\n' := by
  obtain ⟨l1, -, -, -, -, l6, -, -⟩ := digitsLoop_state s
  by_cases hkt : k < (digitsLoop s).current
  · intro hnl
    have hdig := digitsLoop_digits s k hk1 hkt
    rw [hnl] at hdig
    exact absurd hdig (by decide)
  · rw [number] at hk2
    generalize hd : digitsLoop s = t at *
    split at hk2
    · rename_i hdot
      have hk2' : k < (digitsLoop { t with current := t.current + 1 }).current := hk2
      rcases Nat.eq_or_lt_of_le (Nat.le_of_not_lt hkt) with he | hlt
      · have hdotc : t.src.getD t.current '\x00' = '.' := hdot.1
        rw [← l1, ← he]
        rw [hdotc]
        decide
      · intro hnl
        have hdig : is_digit (t.src.getD k '\x00') = true :=
          digitsLoop_digits { t with current := t.current + 1 } k
            (by show t.current + 1 ≤ k; omega) hk2'
        rw [l1, hnl] at hdig
        exact absurd hdig (by decide)
    · have hk2' : k < t.current := hk2
      omega

theorem number_line_count (s : Scanner) :
    (number s).line = s.line + nlCount s.src s.current (number s).current := by
  rw [number_line, nlCount_zero_of_no_newline]
  · simp
  · intro k h1 h2
    exact number_no_newline s k h1 h2

theorem identifier_line_count (s : Scanner) :
    (identifier s).line = s.line + nlCount s.src s.current (identifier s).current := by
  have h1 : (identifier s).line = (alnumLoop s).line := rfl
  have h2 : (identifier s).current = (alnumLoop s).current := rfl
  rw [h1, h2]
  exact alnumLoop_line_count s

end Scanner
end Lox

namespace Lox
namespace Scanner

theorem blockGo_line_count : ∀ (g : Nat) (s : Scanner), slashSafe s.src →
    (blockGo g s).line = s.line + nlCount s.src s.current (blockGo g s).current := by
  intro g
  induction g with
  | zero =>
    intro s _
    show s.line = s.line + nlCount s.src s.current s.current
    rw [nlCount_self]
    omega
  | succ g ih =>
    intro s hsafe
    by_cases h1 : s.src[s.current]?.getD '\x00' = '*'
    · have hc : s.current < s.src.length :=
        lt_length_of_getD_ne s.src s.current (by rw [h1]; decide)
      have e1 : nlCount s.src s.current (s.current + 1) = 0 := by
        rw [nlCount_succ, List.getD_eq_getElem?_getD, h1]; decide
      by_cases h2 : s.src[s.current + 1]?.getD '\x00' = '/'
      · -- guard matched `*/`: the loop exits two characters further
        have he : blockGo (g + 1) s = { s with current := s.current + 1 + 1 } := by
          rw [blockGo]; simp [next_is, peek, h1, h2]
        have e2 : nlCount s.src (s.current + 1) (s.current + 1 + 1) = 0 := by
          rw [nlCount_succ, List.getD_eq_getElem?_getD, h2]; decide
        have hsplitA : nlCount s.src s.current (s.current + 1 + 1)
            = nlCount s.src s.current (s.current + 1)
              + nlCount s.src (s.current + 1) (s.current + 1 + 1) :=
          nlCount_add _ _ _ _ (by omega) (by omega)
        rw [he]
        show s.line = s.line + nlCount s.src s.current (s.current + 1 + 1)
        omega
      · by_cases h3 : s.src[s.current + 1]?.getD '\x00' = '\n'
        · -- the guard ate the `*`; the body counts the newline after it
          have hc2 : s.current + 1 < s.src.length :=
            lt_length_of_getD_ne s.src (s.current + 1) (by rw [h3]; decide)
          have he : blockGo (g + 1) s =
              blockGo g { s with current := s.current + 1 + 1, line := s.line + 1 } := by
            rw [blockGo]; simp [next_is, peek, h1, h2, h3]
          have key : (blockGo g { s with current := s.current + 1 + 1, line := s.line + 1 }).line
              = s.line + 1 + nlCount s.src (s.current + 1 + 1)
                (blockGo g { s with current := s.current + 1 + 1, line := s.line + 1 }).current :=
            ih { s with current := s.current + 1 + 1, line := s.line + 1 } hsafe
          have hmono : s.current + 1 + 1 ≤
              (blockGo g { s with current := s.current + 1 + 1, line := s.line + 1 }).current :=
            (blockGo_state g { s with current := s.current + 1 + 1, line := s.line + 1 }).2.2.2.1
          have e2 : nlCount s.src (s.current + 1) (s.current + 1 + 1) = 1 := by
            rw [nlCount_succ, List.getD_eq_getElem?_getD, h3]; decide
          have hsplitA : nlCount s.src s.current
              (blockGo g { s with current := s.current + 1 + 1, line := s.line + 1 }).current
              = nlCount s.src s.current (s.current + 1)
                + nlCount s.src (s.current + 1)
                  (blockGo g { s with current := s.current + 1 + 1, line := s.line + 1 }).current :=
            nlCount_add _ _ _ _ (by omega) (by omega)
          have hsplitB : nlCount s.src (s.current + 1)
              (blockGo g { s with current := s.current + 1 + 1, line := s.line + 1 }).current
              = nlCount s.src (s.current + 1) (s.current + 1 + 1)
                + nlCount s.src (s.current + 1 + 1)
                  (blockGo g { s with current := s.current + 1 + 1, line := s.line + 1 }).current :=
            nlCount_add _ _ _ _ (by omega) (by omega)
          rw [he]
          omega
        · by_cases h4 : s.src.length ≤ s.current + 1
          · -- `*` then end of input: the error branch hangs one further on
            have he : blockGo (g + 1) s =
                { s with current := s.current + 1,
                         errors := s.errors ++ [(s.line, .UnterminatedComment)],
                         hung := true } := by
              rw [blockGo]; simp [next_is, peek, error, h1, h2, h3, h4]
            rw [he]
            show s.line = s.line + nlCount s.src s.current (s.current + 1)
            omega
          · -- `*` then an uncounted non-newline: plain eat
            have he : blockGo (g + 1) s =
                blockGo g { s with current := s.current + 1 + 1 } := by
              rw [blockGo]; simp [next_is, peek, h1, h2, h3, h4]
            have key : (blockGo g { s with current := s.current + 1 + 1 }).line
                = s.line + nlCount s.src (s.current + 1 + 1)
                  (blockGo g { s with current := s.current + 1 + 1 }).current :=
              ih { s with current := s.current + 1 + 1 } hsafe
            have hmono : s.current + 1 + 1 ≤
                (blockGo g { s with current := s.current + 1 + 1 }).current :=
              (blockGo_state g { s with current := s.current + 1 + 1 }).2.2.2.1
            have hnn : s.src.getD (s.current + 1) '\x00' ≠ '\n' := by
              rw [List.getD_eq_getElem?_getD]; exact h3
            have e2 : nlCount s.src (s.current + 1) (s.current + 1 + 1) = 0 := by
              rw [nlCount_succ, if_neg hnn]
            have hsplitA : nlCount s.src s.current
                (blockGo g { s with current := s.current + 1 + 1 }).current
                = nlCount s.src s.current (s.current + 1)
                  + nlCount s.src (s.current + 1)
                    (blockGo g { s with current := s.current + 1 + 1 }).current :=
              nlCount_add _ _ _ _ (by omega) (by omega)
            have hsplitB : nlCount s.src (s.current + 1)
                (blockGo g { s with current := s.current + 1 + 1 }).current
                = nlCount s.src (s.current + 1) (s.current + 1 + 1)
                  + nlCount s.src (s.current + 1 + 1)
                    (blockGo g { s with current := s.current + 1 + 1 }).current :=
              nlCount_add _ _ _ _ (by omega) (by omega)
            rw [he]
            omega
    · by_cases h3 : s.src[s.current]?.getD '\x00' = '\n'
      · -- a counted newline
        have hc : s.current < s.src.length :=
          lt_length_of_getD_ne s.src s.current (by rw [h3]; decide)
        have he : blockGo (g + 1) s =
            blockGo g { s with current := s.current + 1, line := s.line + 1 } := by
          rw [blockGo]; simp [next_is, peek, h1, h3]
        have key : (blockGo g { s with current := s.current + 1, line := s.line + 1 }).line
            = s.line + 1 + nlCount s.src (s.current + 1)
              (blockGo g { s with current := s.current + 1, line := s.line + 1 }).current :=
          ih { s with current := s.current + 1, line := s.line + 1 } hsafe
        have hmono : s.current + 1 ≤
            (blockGo g { s with current := s.current + 1, line := s.line + 1 }).current :=
          (blockGo_state g { s with current := s.current + 1, line := s.line + 1 }).2.2.2.1
        have e1 : nlCount s.src s.current (s.current + 1) = 1 := by
          rw [nlCount_succ, List.getD_eq_getElem?_getD, h3]; decide
        have hsplitA : nlCount s.src s.current
            (blockGo g { s with current := s.current + 1, line := s.line + 1 }).current
            = nlCount s.src s.current (s.current + 1)
              + nlCount s.src (s.current + 1)
                (blockGo g { s with current := s.current + 1, line := s.line + 1 }).current :=
          nlCount_add _ _ _ _ (by omega) (by omega)
        rw [he]
        omega
      · by_cases h4 : s.src[s.current]?.getD '\x00' = '/'
        · have hc : s.current < s.src.length :=
            lt_length_of_getD_ne s.src s.current (by rw [h4]; decide)
          have e1 : nlCount s.src s.current (s.current + 1) = 0 := by
            rw [nlCount_succ, List.getD_eq_getElem?_getD, h4]; decide
          by_cases h5 : s.src[s.current + 1]?.getD '\x00' = '*'
          · -- `/*`: nested comment, then the loop resumes
            have hc2 : s.current + 1 < s.src.length :=
              lt_length_of_getD_ne s.src (s.current + 1) (by rw [h5]; decide)
            have he : blockGo (g + 1) s =
                (if (blockGo g { s with current := s.current + 1 + 1 }).hung = true
                 then blockGo g { s with current := s.current + 1 + 1 }
                 else blockGo g (blockGo g { s with current := s.current + 1 + 1 })) := by
              rw [blockGo]; simp [next_is, peek, h1, h3, h4, h5]
            have key1 : (blockGo g { s with current := s.current + 1 + 1 }).line
                = s.line + nlCount s.src (s.current + 1 + 1)
                  (blockGo g { s with current := s.current + 1 + 1 }).current :=
              ih { s with current := s.current + 1 + 1 } hsafe
            have hmono1 : s.current + 1 + 1 ≤
                (blockGo g { s with current := s.current + 1 + 1 }).current :=
              (blockGo_state g { s with current := s.current + 1 + 1 }).2.2.2.1
            have e2 : nlCount s.src (s.current + 1) (s.current + 1 + 1) = 0 := by
              rw [nlCount_succ, List.getD_eq_getElem?_getD, h5]; decide
            have hsplitA : nlCount s.src s.current
                (blockGo g { s with current := s.current + 1 + 1 }).current
                = nlCount s.src s.current (s.current + 1)
                  + nlCount s.src (s.current + 1)
                    (blockGo g { s with current := s.current + 1 + 1 }).current :=
              nlCount_add _ _ _ _ (by omega) (by omega)
            have hsplitB : nlCount s.src (s.current + 1)
                (blockGo g { s with current := s.current + 1 + 1 }).current
                = nlCount s.src (s.current + 1) (s.current + 1 + 1)
                  + nlCount s.src (s.current + 1 + 1)
                    (blockGo g { s with current := s.current + 1 + 1 }).current :=
              nlCount_add _ _ _ _ (by omega) (by omega)
            rw [he]
            split
            · omega
            · have hr1 : (blockGo g { s with current := s.current + 1 + 1 }).src = s.src :=
                (blockGo_state g _).1
              have key2 := ih (blockGo g { s with current := s.current + 1 + 1 })
                (by rw [hr1]; exact hsafe)
              rw [hr1] at key2
              have hmono2 : (blockGo g { s with current := s.current + 1 + 1 }).current ≤
                  (blockGo g (blockGo g { s with current := s.current + 1 + 1 })).current :=
                (blockGo_state g (blockGo g { s with current := s.current + 1 + 1 })).2.2.2.1
              have hsplitC : nlCount s.src (s.current + 1 + 1)
                  (blockGo g (blockGo g { s with current := s.current + 1 + 1 })).current
                  = nlCount s.src (s.current + 1 + 1)
                    (blockGo g { s with current := s.current + 1 + 1 }).current
                    + nlCount s.src
                      (blockGo g { s with current := s.current + 1 + 1 }).current
                      (blockGo g (blockGo g { s with current := s.current + 1 + 1 })).current :=
                nlCount_add _ _ _ _ (by omega) (by omega)
              have hsplitD : nlCount s.src s.current
                  (blockGo g (blockGo g { s with current := s.current + 1 + 1 })).current
                  = nlCount s.src s.current (s.current + 1 + 1)
                    + nlCount s.src (s.current + 1 + 1)
                      (blockGo g (blockGo g { s with current := s.current + 1 + 1 })).current :=
                nlCount_add _ _ _ _ (by omega) (by omega)
              have hsplitE : nlCount s.src s.current (s.current + 1 + 1)
                  = nlCount s.src s.current (s.current + 1)
                    + nlCount s.src (s.current + 1) (s.current + 1 + 1) :=
                nlCount_add _ _ _ _ (by omega) (by omega)
              omega
          · -- the failed `/` probe still ate the `/`
            by_cases h6 : s.src.length ≤ s.current + 1
            · have he : blockGo (g + 1) s =
                  { s with current := s.current + 1,
                           errors := s.errors ++ [(s.line, .UnterminatedComment)],
                           hung := true } := by
                rw [blockGo]; simp [next_is, peek, error, h1, h3, h4, h5, h6]
              rw [he]
              show s.line = s.line + nlCount s.src s.current (s.current + 1)
              omega
            · -- the blind eat after the `/`: safe only on slashSafe sources
              have he : blockGo (g + 1) s =
                  blockGo g { s with current := s.current + 1 + 1 } := by
                rw [blockGo]; simp [next_is, peek, h1, h3, h4, h5, h6]
              have key : (blockGo g { s with current := s.current + 1 + 1 }).line
                  = s.line + nlCount s.src (s.current + 1 + 1)
                    (blockGo g { s with current := s.current + 1 + 1 }).current :=
                ih { s with current := s.current + 1 + 1 } hsafe
              have hmono : s.current + 1 + 1 ≤
                  (blockGo g { s with current := s.current + 1 + 1 }).current :=
                (blockGo_state g { s with current := s.current + 1 + 1 }).2.2.2.1
              have g4 : s.src.getD s.current '\x00' = '/' := by
                rw [List.getD_eq_getElem?_getD]; exact h4
              have hnn : s.src.getD (s.current + 1) '\x00' ≠ '\n' := hsafe s.current hc g4
              have e2 : nlCount s.src (s.current + 1) (s.current + 1 + 1) = 0 := by
                rw [nlCount_succ, if_neg hnn]
              have hsplitA : nlCount s.src s.current
                  (blockGo g { s with current := s.current + 1 + 1 }).current
                  = nlCount s.src s.current (s.current + 1)
                    + nlCount s.src (s.current + 1)
                      (blockGo g { s with current := s.current + 1 + 1 }).current :=
                nlCount_add _ _ _ _ (by omega) (by omega)
              have hsplitB : nlCount s.src (s.current + 1)
                  (blockGo g { s with current := s.current + 1 + 1 }).current
                  = nlCount s.src (s.current + 1) (s.current + 1 + 1)
                    + nlCount s.src (s.current + 1 + 1)
                      (blockGo g { s with current := s.current + 1 + 1 }).current :=
                nlCount_add _ _ _ _ (by omega) (by omega)
              rw [he]
              omega
        · by_cases h6 : s.src.length ≤ s.current
          · -- end of input with the comment still open: hang in place
            have he : blockGo (g + 1) s =
                { s with errors := s.errors ++ [(s.line, .UnterminatedComment)],
                         hung := true } := by
              rw [blockGo]; simp [next_is, peek, error, h1, h3, h4, h6]
            rw [he]
            show s.line = s.line + nlCount s.src s.current s.current
            rw [nlCount_self]
            omega
          · -- plain eat of an ordinary (checked, non-newline) character
            have he : blockGo (g + 1) s =
                blockGo g { s with current := s.current + 1 } := by
              rw [blockGo]; simp [next_is, peek, h1, h3, h4, h6]
            have key : (blockGo g { s with current := s.current + 1 }).line
                = s.line + nlCount s.src (s.current + 1)
                  (blockGo g { s with current := s.current + 1 }).current :=
              ih { s with current := s.current + 1 } hsafe
            have hmono : s.current + 1 ≤
                (blockGo g { s with current := s.current + 1 }).current :=
              (blockGo_state g { s with current := s.current + 1 }).2.2.2.1
            have hnn : s.src.getD s.current '\x00' ≠ '\n' := by
              rw [List.getD_eq_getElem?_getD]; exact h3
            have e1 : nlCount s.src s.current (s.current + 1) = 0 := by
              rw [nlCount_succ, if_neg hnn]
            have hsplitA : nlCount s.src s.current
                (blockGo g { s with current := s.current + 1 }).current
                = nlCount s.src s.current (s.current + 1)
                  + nlCount s.src (s.current + 1)
                    (blockGo g { s with current := s.current + 1 }).current :=
              nlCount_add _ _ _ _ (by omega) (by omega)
            rw [he]
            omega

theorem block_comment_line_count (s : Scanner) (hsafe : slashSafe s.src) :
    (block_comment s).line
      = s.line + nlCount s.src s.current (block_comment s).current := by
  rw [block_comment]
  exact blockGo_line_count _ s hsafe

end Scanner
end Lox

namespace Lox
namespace Scanner

theorem scan_token_line_count (s0 : Scanner) (h : s0.current < s0.src.length)
    (hq : '"' ∉ s0.src) (hsafe : slashSafe s0.src) :
    (scan_token s0).line
      = s0.line + nlCount s0.src s0.current (scan_token s0).current := by
  rw [scan_token]
  split
  -- '('
  · rename_i hc
    have hg : s0.src.getD s0.current '\x00' = '(' := hc
    have e1 : nlCount s0.src s0.current (s0.current + 1) = 0 := by
      rw [nlCount_succ, hg]; decide
    show s0.line = s0.line + nlCount s0.src s0.current (s0.current + 1)
    omega
  -- ')'
  · rename_i hc
    have hg : s0.src.getD s0.current '\x00' = ')' := hc
    have e1 : nlCount s0.src s0.current (s0.current + 1) = 0 := by
      rw [nlCount_succ, hg]; decide
    show s0.line = s0.line + nlCount s0.src s0.current (s0.current + 1)
    omega
  -- '{'
  · rename_i hc
    have hg : s0.src.getD s0.current '\x00' = '\x7b' := hc
    have e1 : nlCount s0.src s0.current (s0.current + 1) = 0 := by
      rw [nlCount_succ, hg]; decide
    show s0.line = s0.line + nlCount s0.src s0.current (s0.current + 1)
    omega
  -- '}'
  · rename_i hc
    have hg : s0.src.getD s0.current '\x00' = '\x7d' := hc
    have e1 : nlCount s0.src s0.current (s0.current + 1) = 0 := by
      rw [nlCount_succ, hg]; decide
    show s0.line = s0.line + nlCount s0.src s0.current (s0.current + 1)
    omega
  -- ','
  · rename_i hc
    have hg : s0.src.getD s0.current '\x00' = ',' := hc
    have e1 : nlCount s0.src s0.current (s0.current + 1) = 0 := by
      rw [nlCount_succ, hg]; decide
    show s0.line = s0.line + nlCount s0.src s0.current (s0.current + 1)
    omega
  -- '.'
  · rename_i hc
    have hg : s0.src.getD s0.current '\x00' = '.' := hc
    have e1 : nlCount s0.src s0.current (s0.current + 1) = 0 := by
      rw [nlCount_succ, hg]; decide
    show s0.line = s0.line + nlCount s0.src s0.current (s0.current + 1)
    omega
  -- '-'
  · rename_i hc
    have hg : s0.src.getD s0.current '\x00' = '-' := hc
    have e1 : nlCount s0.src s0.current (s0.current + 1) = 0 := by
      rw [nlCount_succ, hg]; decide
    show s0.line = s0.line + nlCount s0.src s0.current (s0.current + 1)
    omega
  -- '+'
  · rename_i hc
    have hg : s0.src.getD s0.current '\x00' = '+' := hc
    have e1 : nlCount s0.src s0.current (s0.current + 1) = 0 := by
      rw [nlCount_succ, hg]; decide
    show s0.line = s0.line + nlCount s0.src s0.current (s0.current + 1)
    omega
  -- ';'
  · rename_i hc
    have hg : s0.src.getD s0.current '\x00' = ';' := hc
    have e1 : nlCount s0.src s0.current (s0.current + 1) = 0 := by
      rw [nlCount_succ, hg]; decide
    show s0.line = s0.line + nlCount s0.src s0.current (s0.current + 1)
    omega
  -- '*'
  · rename_i hc
    have hg : s0.src.getD s0.current '\x00' = '*' := hc
    have e1 : nlCount s0.src s0.current (s0.current + 1) = 0 := by
      rw [nlCount_succ, hg]; decide
    show s0.line = s0.line + nlCount s0.src s0.current (s0.current + 1)
    omega
  -- '%'
  · rename_i hc
    have hg : s0.src.getD s0.current '\x00' = '%' := hc
    have e1 : nlCount s0.src s0.current (s0.current + 1) = 0 := by
      rw [nlCount_succ, hg]; decide
    show s0.line = s0.line + nlCount s0.src s0.current (s0.current + 1)
    omega
  -- '!'
  · rename_i hc
    have hg : s0.src.getD s0.current '\x00' = '!' := hc
    have e1 : nlCount s0.src s0.current (s0.current + 1) = 0 := by
      rw [nlCount_succ, hg]; decide
    by_cases hq2 : s0.src[s0.current + 1]?.getD '\x00' = '='
    · have hn : next_is '=' (eat s0).2 =
          (true, { s0 with current := s0.current + 1 + 1 }) := by
        simp [next_is, peek, eat, hq2]
      rw [hn]
      have e2 : nlCount s0.src (s0.current + 1) (s0.current + 1 + 1) = 0 := by
        rw [nlCount_succ, List.getD_eq_getElem?_getD, hq2]; decide
      have hsplitA : nlCount s0.src s0.current (s0.current + 1 + 1)
          = nlCount s0.src s0.current (s0.current + 1)
            + nlCount s0.src (s0.current + 1) (s0.current + 1 + 1) :=
        nlCount_add _ _ _ _ (by omega) (by omega)
      show s0.line = s0.line + nlCount s0.src s0.current (s0.current + 1 + 1)
      omega
    · have hn : next_is '=' (eat s0).2 = (false, (eat s0).2) := by
        simp [next_is, peek, eat, hq2]
      rw [hn]
      show s0.line = s0.line + nlCount s0.src s0.current (s0.current + 1)
      omega
  -- '='
  · rename_i hc
    have hg : s0.src.getD s0.current '\x00' = '=' := hc
    have e1 : nlCount s0.src s0.current (s0.current + 1) = 0 := by
      rw [nlCount_succ, hg]; decide
    by_cases hq2 : s0.src[s0.current + 1]?.getD '\x00' = '='
    · have hn : next_is '=' (eat s0).2 =
          (true, { s0 with current := s0.current + 1 + 1 }) := by
        simp [next_is, peek, eat, hq2]
      rw [hn]
      have e2 : nlCount s0.src (s0.current + 1) (s0.current + 1 + 1) = 0 := by
        rw [nlCount_succ, List.getD_eq_getElem?_getD, hq2]; decide
      have hsplitA : nlCount s0.src s0.current (s0.current + 1 + 1)
          = nlCount s0.src s0.current (s0.current + 1)
            + nlCount s0.src (s0.current + 1) (s0.current + 1 + 1) :=
        nlCount_add _ _ _ _ (by omega) (by omega)
      show s0.line = s0.line + nlCount s0.src s0.current (s0.current + 1 + 1)
      omega
    · have hn : next_is '=' (eat s0).2 = (false, (eat s0).2) := by
        simp [next_is, peek, eat, hq2]
      rw [hn]
      show s0.line = s0.line + nlCount s0.src s0.current (s0.current + 1)
      omega
  -- '<'
  · rename_i hc
    have hg : s0.src.getD s0.current '\x00' = '<' := hc
    have e1 : nlCount s0.src s0.current (s0.current + 1) = 0 := by
      rw [nlCount_succ, hg]; decide
    by_cases hq2 : s0.src[s0.current + 1]?.getD '\x00' = '='
    · have hn : next_is '=' (eat s0).2 =
          (true, { s0 with current := s0.current + 1 + 1 }) := by
        simp [next_is, peek, eat, hq2]
      rw [hn]
      have e2 : nlCount s0.src (s0.current + 1) (s0.current + 1 + 1) = 0 := by
        rw [nlCount_succ, List.getD_eq_getElem?_getD, hq2]; decide
      have hsplitA : nlCount s0.src s0.current (s0.current + 1 + 1)
          = nlCount s0.src s0.current (s0.current + 1)
            + nlCount s0.src (s0.current + 1) (s0.current + 1 + 1) :=
        nlCount_add _ _ _ _ (by omega) (by omega)
      show s0.line = s0.line + nlCount s0.src s0.current (s0.current + 1 + 1)
      omega
    · have hn : next_is '=' (eat s0).2 = (false, (eat s0).2) := by
        simp [next_is, peek, eat, hq2]
      rw [hn]
      show s0.line = s0.line + nlCount s0.src s0.current (s0.current + 1)
      omega
  -- '>'
  · rename_i hc
    have hg : s0.src.getD s0.current '\x00' = '>' := hc
    have e1 : nlCount s0.src s0.current (s0.current + 1) = 0 := by
      rw [nlCount_succ, hg]; decide
    by_cases hq2 : s0.src[s0.current + 1]?.getD '\x00' = '='
    · have hn : next_is '=' (eat s0).2 =
          (true, { s0 with current := s0.current + 1 + 1 }) := by
        simp [next_is, peek, eat, hq2]
      rw [hn]
      have e2 : nlCount s0.src (s0.current + 1) (s0.current + 1 + 1) = 0 := by
        rw [nlCount_succ, List.getD_eq_getElem?_getD, hq2]; decide
      have hsplitA : nlCount s0.src s0.current (s0.current + 1 + 1)
          = nlCount s0.src s0.current (s0.current + 1)
            + nlCount s0.src (s0.current + 1) (s0.current + 1 + 1) :=
        nlCount_add _ _ _ _ (by omega) (by omega)
      show s0.line = s0.line + nlCount s0.src s0.current (s0.current + 1 + 1)
      omega
    · have hn : next_is '=' (eat s0).2 = (false, (eat s0).2) := by
        simp [next_is, peek, eat, hq2]
      rw [hn]
      show s0.line = s0.line + nlCount s0.src s0.current (s0.current + 1)
      omega
  -- '/'
  · rename_i hc
    have hg : s0.src.getD s0.current '\x00' = '/' := hc
    have e1 : nlCount s0.src s0.current (s0.current + 1) = 0 := by
      rw [nlCount_succ, hg]; decide
    by_cases hq2 : s0.src[s0.current + 1]?.getD '\x00' = '/'
    · -- `//`: line comment
      have h2 : s0.current + 1 < s0.src.length :=
        lt_length_of_getD_ne _ _ (by rw [hq2]; decide)
      have hn : next_is '/' (eat s0).2 =
          (true, { s0 with current := s0.current + 1 + 1 }) := by
        simp [next_is, peek, eat, hq2]
      simp only [hn, reduceIte]
      have key : (lineComment { s0 with current := s0.current + 1 + 1 }).line
          = s0.line + nlCount s0.src (s0.current + 1 + 1)
            (lineComment { s0 with current := s0.current + 1 + 1 }).current :=
        lineComment_line_count { s0 with current := s0.current + 1 + 1 }
      have hmono : s0.current + 1 + 1 ≤
          (lineComment { s0 with current := s0.current + 1 + 1 }).current :=
        (lineComment_state { s0 with current := s0.current + 1 + 1 }
          (by show s0.current + 1 + 1 ≤ s0.src.length; omega)).2.2.2.2.2.1
      have e2 : nlCount s0.src (s0.current + 1) (s0.current + 1 + 1) = 0 := by
        rw [nlCount_succ, List.getD_eq_getElem?_getD, hq2]; decide
      have hsplitA : nlCount s0.src s0.current
          (lineComment { s0 with current := s0.current + 1 + 1 }).current
          = nlCount s0.src s0.current (s0.current + 1)
            + nlCount s0.src (s0.current + 1)
              (lineComment { s0 with current := s0.current + 1 + 1 }).current :=
        nlCount_add _ _ _ _ (by omega) (by omega)
      have hsplitB : nlCount s0.src (s0.current + 1)
          (lineComment { s0 with current := s0.current + 1 + 1 }).current
          = nlCount s0.src (s0.current + 1) (s0.current + 1 + 1)
            + nlCount s0.src (s0.current + 1 + 1)
              (lineComment { s0 with current := s0.current + 1 + 1 }).current :=
        nlCount_add _ _ _ _ (by omega) (by omega)
      omega
    · have hn : next_is '/' (eat s0).2 = (false, (eat s0).2) := by
        simp [next_is, peek, eat, hq2]
      by_cases hr : s0.src[s0.current + 1]?.getD '\x00' = '*'
      · -- `/*`: block comment
        have h2 : s0.current + 1 < s0.src.length :=
          lt_length_of_getD_ne _ _ (by rw [hr]; decide)
        have hn2 : next_is '*' (eat s0).2 =
            (true, { s0 with current := s0.current + 1 + 1 }) := by
          simp [next_is, peek, eat, hr]
        simp only [hn, hn2, Bool.false_eq_true, if_false, reduceIte]
        have key : (block_comment { s0 with current := s0.current + 1 + 1 }).line
            = s0.line + nlCount s0.src (s0.current + 1 + 1)
              (block_comment { s0 with current := s0.current + 1 + 1 }).current :=
          block_comment_line_count { s0 with current := s0.current + 1 + 1 } hsafe
        have hmono : s0.current + 1 + 1 ≤
            (block_comment { s0 with current := s0.current + 1 + 1 }).current :=
          (block_comment_state { s0 with current := s0.current + 1 + 1 }
            (by show s0.current + 1 + 1 ≤ s0.src.length; omega)).2.2.2.1
        have e2 : nlCount s0.src (s0.current + 1) (s0.current + 1 + 1) = 0 := by
          rw [nlCount_succ, List.getD_eq_getElem?_getD, hr]; decide
        have hsplitA : nlCount s0.src s0.current
            (block_comment { s0 with current := s0.current + 1 + 1 }).current
            = nlCount s0.src s0.current (s0.current + 1)
              + nlCount s0.src (s0.current + 1)
                (block_comment { s0 with current := s0.current + 1 + 1 }).current :=
          nlCount_add _ _ _ _ (by omega) (by omega)
        have hsplitB : nlCount s0.src (s0.current + 1)
            (block_comment { s0 with current := s0.current + 1 + 1 }).current
            = nlCount s0.src (s0.current + 1) (s0.current + 1 + 1)
              + nlCount s0.src (s0.current + 1 + 1)
                (block_comment { s0 with current := s0.current + 1 + 1 }).current :=
          nlCount_add _ _ _ _ (by omega) (by omega)
        omega
      · have hn2 : next_is '*' (eat s0).2 = (false, (eat s0).2) := by
          simp [next_is, peek, eat, hr]
        simp only [hn, hn2, Bool.false_eq_true, if_false, reduceIte]
        show s0.line = s0.line + nlCount s0.src s0.current (s0.current + 1)
        omega
  -- ' '
  · rename_i hc
    have hg : s0.src.getD s0.current '\x00' = ' ' := hc
    have e1 : nlCount s0.src s0.current (s0.current + 1) = 0 := by
      rw [nlCount_succ, hg]; decide
    show s0.line = s0.line + nlCount s0.src s0.current (s0.current + 1)
    omega
  -- '\r'
  · rename_i hc
    have hg : s0.src.getD s0.current '\x00' = '\x0d' := hc
    have e1 : nlCount s0.src s0.current (s0.current + 1) = 0 := by
      rw [nlCount_succ, hg]; decide
    show s0.line = s0.line + nlCount s0.src s0.current (s0.current + 1)
    omega
  -- '\t'
  · rename_i hc
    have hg : s0.src.getD s0.current '\x00' = '\t' := hc
    have e1 : nlCount s0.src s0.current (s0.current + 1) = 0 := by
      rw [nlCount_succ, hg]; decide
    show s0.line = s0.line + nlCount s0.src s0.current (s0.current + 1)
    omega
  -- '\n'
  · rename_i hc
    have hg : s0.src.getD s0.current '\x00' = '\n' := hc
    have e1 : nlCount s0.src s0.current (s0.current + 1) = 1 := by
      rw [nlCount_succ, hg]; decide
    show s0.line + 1 = s0.line + nlCount s0.src s0.current (s0.current + 1)
    omega
  -- '"': impossible on quote-free sources
  · rename_i hc
    exfalso
    have hg : s0.src.getD s0.current '\x00' = '\"' := hc
    rw [List.getD_eq_getElem?_getD, List.getElem?_eq_getElem h] at hg
    simp only [Option.getD_some] at hg
    exact hq (hg ▸ List.getElem_mem h)
  -- digit / alpha / unexpected character
  · rename_i hnl hqq
    split
    · -- digit: number literal
      rename_i hd
      show (number { s0 with current := s0.current + 1 }).line
        = s0.line + nlCount s0.src s0.current
          (number { s0 with current := s0.current + 1 }).current
      have hdd : is_digit (s0.src.getD s0.current '\x00') = true := hd
      have hnn : s0.src.getD s0.current '\x00' ≠ '\n' := by
        intro hx
        rw [hx] at hdd
        exact absurd hdd (by decide)
      have e1 : nlCount s0.src s0.current (s0.current + 1) = 0 := by
        rw [nlCount_succ, if_neg hnn]
      have key : (number { s0 with current := s0.current + 1 }).line
          = s0.line + nlCount s0.src (s0.current + 1)
            (number { s0 with current := s0.current + 1 }).current :=
        number_line_count { s0 with current := s0.current + 1 }
      have hmono : s0.current + 1 ≤
          (number { s0 with current := s0.current + 1 }).current :=
        (number_state { s0 with current := s0.current + 1 }
          (by show s0.current + 1 ≤ s0.src.length; omega)).2.2.1
      have hsplitA : nlCount s0.src s0.current
          (number { s0 with current := s0.current + 1 }).current
          = nlCount s0.src s0.current (s0.current + 1)
            + nlCount s0.src (s0.current + 1)
              (number { s0 with current := s0.current + 1 }).current :=
        nlCount_add _ _ _ _ (by omega) (by omega)
      omega
    · split
      · -- alpha: identifier / keyword
        rename_i ha
        show (identifier { s0 with current := s0.current + 1 }).line
          = s0.line + nlCount s0.src s0.current
            (identifier { s0 with current := s0.current + 1 }).current
        have haa : is_alpha (s0.src.getD s0.current '\x00') = true := ha
        have hnn : s0.src.getD s0.current '\x00' ≠ '\n' := by
          intro hx
          rw [hx] at haa
          exact absurd haa (by decide)
        have e1 : nlCount s0.src s0.current (s0.current + 1) = 0 := by
          rw [nlCount_succ, if_neg hnn]
        have key : (identifier { s0 with current := s0.current + 1 }).line
            = s0.line + nlCount s0.src (s0.current + 1)
              (identifier { s0 with current := s0.current + 1 }).current :=
          identifier_line_count { s0 with current := s0.current + 1 }
        have hmono : s0.current + 1 ≤
            (identifier { s0 with current := s0.current + 1 }).current :=
          (identifier_state { s0 with current := s0.current + 1 }
            (by show s0.current + 1 ≤ s0.src.length; omega)).2.2.1
        have hsplitA : nlCount s0.src s0.current
            (identifier { s0 with current := s0.current + 1 }).current
            = nlCount s0.src s0.current (s0.current + 1)
              + nlCount s0.src (s0.current + 1)
                (identifier { s0 with current := s0.current + 1 }).current :=
          nlCount_add _ _ _ _ (by omega) (by omega)
        omega
      · -- unexpected character: error, cursor one further
        have hnn : s0.src.getD s0.current '\x00' ≠ '\n' := fun hx => hnl hx
        have e1 : nlCount s0.src s0.current (s0.current + 1) = 0 := by
          rw [nlCount_succ, if_neg hnn]
        show s0.line = s0.line + nlCount s0.src s0.current (s0.current + 1)
        omega

end Scanner
end Lox

namespace Lox
namespace Scanner

theorem scanLoopGo_current_mono : ∀ (g : Nat) (s : Scanner),
    s.current ≤ (scanLoopGo g s).current := by
  intro g
  induction g with
  | zero =>
    intro s
    show s.current ≤ s.current
    omega
  | succ g ih =>
    intro s
    rw [scanLoopGo_succ]
    by_cases hend : at_end s = true
    · rw [if_pos hend]
    · rw [if_neg hend]
      have hcur : s.current < s.src.length := by simpa [at_end] using hend
      obtain ⟨-, -, st3, -, -⟩ := scan_token_state s hcur
      by_cases hh : (scan_token s).hung = true
      · rw [if_pos hh]
        omega
      · rw [if_neg hh]
        have k : (scan_token s).current ≤
            (scanLoopGo g { scan_token s with start := (scan_token s).current }).current :=
          ih { scan_token s with start := (scan_token s).current }
        omega

theorem scanLoopGo_line_count : ∀ (g : Nat) (s : Scanner),
    '"' ∉ s.src → slashSafe s.src →
    (scanLoopGo g s).line = s.line + nlCount s.src s.current (scanLoopGo g s).current := by
  intro g
  induction g with
  | zero =>
    intro s _ _
    show s.line = s.line + nlCount s.src s.current s.current
    rw [nlCount_self]
    omega
  | succ g ih =>
    intro s hq hsafe
    rw [scanLoopGo_succ]
    by_cases hend : at_end s = true
    · rw [if_pos hend]
      show s.line = s.line + nlCount s.src s.current s.current
      rw [nlCount_self]
      omega
    · rw [if_neg hend]
      have hcur : s.current < s.src.length := by simpa [at_end] using hend
      have key1 := scan_token_line_count s hcur hq hsafe
      by_cases hh : (scan_token s).hung = true
      · rw [if_pos hh]
        exact key1
      · rw [if_neg hh]
        obtain ⟨st1, -, st3, st4, -⟩ := scan_token_state s hcur
        have key2 : (scanLoopGo g { scan_token s with start := (scan_token s).current }).line
            = (scan_token s).line + nlCount (scan_token s).src (scan_token s).current
              (scanLoopGo g { scan_token s with start := (scan_token s).current }).current :=
          ih { scan_token s with start := (scan_token s).current }
            (by show '"' ∉ (scan_token s).src; rw [st1]; exact hq)
            (by show slashSafe (scan_token s).src; rw [st1]; exact hsafe)
        rw [st1] at key2
        have hmono2 : (scan_token s).current ≤
            (scanLoopGo g { scan_token s with start := (scan_token s).current }).current :=
          scanLoopGo_current_mono g { scan_token s with start := (scan_token s).current }
        have hsplit : nlCount s.src s.current
            (scanLoopGo g { scan_token s with start := (scan_token s).current }).current
            = nlCount s.src s.current (scan_token s).current
              + nlCount s.src (scan_token s).current
                (scanLoopGo g { scan_token s with start := (scan_token s).current }).current :=
          nlCount_add _ _ _ _ (by omega) (by omega)
        omega

end Scanner

/-- On a source with no string literal (no `"` anywhere) and no `/`
directly followed by a newline, one full pass counts every consumed
newline exactly: the final `line` is 1 plus the number of newlines
before the final cursor. -/
theorem scanState_line_count (src : List Char) (hq : '"' ∉ src) (hsafe : slashSafe src) :
    (scanState src).line = 1 + (src.take (scanState src).current).count '\n' := by
  obtain ⟨-, hcur, hline, -, -, -⟩ := Scanner.scan_tokens_fields (Scanner.new src)
  have hb : ∀ b, nlCount src 0 b = (src.take b).count '\n' := by
    intro b
    simp [nlCount]
  rw [scanState, hline, hcur, Scanner.scanLoop]
  have key : (Scanner.scanLoopGo
        ((Scanner.new src).src.length + 1 - (Scanner.new src).current)
        (Scanner.new src)).line
      = 1 + nlCount src 0 (Scanner.scanLoopGo
        ((Scanner.new src).src.length + 1 - (Scanner.new src).current)
        (Scanner.new src)).current :=
    Scanner.scanLoopGo_line_count _ (Scanner.new src) hq hsafe
  rw [key, hb]

end Lox

namespace Lox

/-- C3 (amended): during one scanning pass the line counter never
decreases — at every observation point (any number of loop steps) and in
the final state the line is at least its initial value, and a full pass
ends with line at least 1.  On sources without string literals (no `"`)
and in which no `/` is directly followed by a newline, the count is
exact: the final line is 1 plus the number of newlines before the final
cursor, so newlines inside block comments are counted there.  The
claim's unrestricted exactly-once-per-newline half fails in two ways: a
newline standing right after a string literal's opening quote is
consumed without an increment, and inside a block comment the failed
closing probe `next_is('/')` eats a stray `/` after which the next
character — even a newline — is eaten without the newline check (see the
counterexample). -/
theorem c3_line_monotone :
    (∀ (s : Scanner) (g : Nat), s.line ≤ (Scanner.scanLoopGo g s).line) ∧
    (∀ s : Scanner, s.line ≤ (Scanner.scan_tokens s).line) ∧
    (∀ src : List Char, 1 ≤ (scanState src).line) ∧
    (∀ src : List Char, '"' ∉ src → slashSafe src →
      (scanState src).line = 1 + (src.take (scanState src).current).count '\n') := by
  have h1 : ∀ (g : Nat) (s : Scanner), s.line ≤ (Scanner.scanLoopGo g s).line :=
    fun g s => ((Scanner.scanLoopGo_state g s).2).1
  have h2 : ∀ s : Scanner, s.line ≤ (Scanner.scan_tokens s).line := by
    intro s
    obtain ⟨-, -, hl, -, -, -⟩ := Scanner.scan_tokens_fields s
    rw [hl, Scanner.scanLoop]
    exact h1 _ s
  exact ⟨fun s g => h1 g s, h2, fun src => h2 (Scanner.new src),
    fun src hq hsafe => scanState_line_count src hq hsafe⟩

/-- C3 witness: the exact-count conjunct applied to a concrete source
with two newlines, no quote and no slash: the pass ends on line 3. -/
theorem c3_witness :
    '"' ∉ str "a\n\nb" ∧ slashSafe (str "a\n\nb") ∧
    (scanState (str "a\n\nb")).line
      = 1 + ((str "a\n\nb").take (scanState (str "a\n\nb")).current).count '\n' :=
  ⟨by decide, by decide, c3_line_monotone.2.2.2 (str "a\n\nb") (by decide) (by decide)⟩

end Lox
